import Mathlib

/-!
# VPIC: component addressing and the energy reduction

A shallow embedding of

* `src/emitter/emitter.h`: the macros `COMPONENT_ID`, `EXTRACT_LOCAL_CELL`
  and `EXTRACT_COMPONENT_TYPE`;
* `src/particle/energy_p.c`: the function `energy_p`;
* `src/util/v4/v4_portable.hpp`: `transpose`, the conditional moves, the memory
  functions, the predicates of `v4int` and `v4float`, and `abs`.

C `int` values are integers in `[-2^31, 2^31)`; an operation whose exact
result can leave that range is followed by `toInt32` (wrap-around in two-complement
form).  `>>` on a negative `int` is the arithmetic shift.
-/

namespace Vpic

/-! ## 32-bit integers -/

/-- Wrap-around (two-complement) reduction of an integer to the range of a C `int`. -/
def toInt32 (x : Int) : Int := (x + 2147483648) % 4294967296 - 2147483648

/-- Membership in the range of a C `int`. -/
def isInt32 (x : Int) : Prop := -2147483648 ≤ x ∧ x < 2147483648

instance (x : Int) : Decidable (isInt32 x) :=
  inferInstanceAs (Decidable (-2147483648 ≤ x ∧ x < 2147483648))

/-! ## emitter.h: component addressing -/

/-- Macro `#define COMPONENT_ID(local_cell,component_type)
    (((local_cell)<<5) | (component_type))`. -/
def COMPONENT_ID (local_cell component_type : Int) : Int :=
  Int.lor (toInt32 (local_cell <<< (5 : Int))) component_type

/-- Macro `#define EXTRACT_LOCAL_CELL(component_id) ((component_id)>>5)`. -/
def EXTRACT_LOCAL_CELL (component_id : Int) : Int := component_id >>> (5 : Nat)

/-- Macro `#define EXTRACT_COMPONENT_TYPE(component_id) ((component_id)&31)`. -/
def EXTRACT_COMPONENT_TYPE (component_id : Int) : Int := Int.land component_id 31

/-- The arithmetic form of the enumeration, as the specification and the
header comment word it: `32*local_cell_id + component_type`. -/
def component_id_arith (cell_index type_code : Int) : Int := cell_index * 32 + type_code

/-- Modelled from the spec: the type code of a component from its three
offsets (the header only names it, as a "(-1:1,-1:1,-1:1) FORTRAN style
indexing calculation"): `(dx+1) + 3*(dy+1) + 9*(dz+1)`. -/
def component_type (dx dy dz : Int) : Int := (dx + 1) + 3 * (dy + 1) + 9 * (dz + 1)

/-- The failures the specification names. -/
inductive ErrorKind where
  | InvalidArgument
  deriving DecidableEq

/-- The operation `encode` of the specification as the code has it: `COMPONENT_ID`
expands to a single expression with no test of its arguments and no failure
path, so every call yields an id. -/
def encode (cell_index type_code : Int) : Except ErrorKind Int :=
  Except.ok (COMPONENT_ID cell_index type_code)

/-- The arguments the specification says `encode` rejects: a type code outside
`[0,31]`, or a cell index outside the 27 bits (sign included) that remain above
the 5-bit type field. -/
def badEncodeArgs (cell_index type_code : Int) : Prop :=
  type_code < 0 ∨ 31 < type_code ∨ cell_index < -67108864 ∨ 67108864 ≤ cell_index

instance (cell_index type_code : Int) : Decidable (badEncodeArgs cell_index type_code) :=
  inferInstanceAs (Decidable
    (type_code < 0 ∨ 31 < type_code ∨ cell_index < -67108864 ∨ 67108864 ≤ cell_index))

/-! ## IEEE-754 binary64: the C type `double` -/

/-- A `double`: a NaN (payloads are not distinguished), a signed infinity, or
the finite value `(-1)^neg * m * 2^e`.  The operations below return finite
values in canonical form: `m < 2^53`, `-1074 ≤ e ≤ 971`, and `2^52 ≤ m` unless
`e = -1074` (subnormals and the two zeros, `m = 0`).  A C `float` is held as
the `double` of the same value, so the conversion `(double)x` is the identity. -/
inductive Dbl where
  | nan
  | inf (neg : Bool)
  | fin (neg : Bool) (m : Nat) (e : Int)
  deriving DecidableEq

namespace Dbl

/-- Binary search for `⌊log2 n⌋` over the low `k` bits of the answer, `lo`
holding the bits already decided. -/
def log2Search (n : Nat) : Nat → Nat → Nat
  | 0, lo => lo
  | k + 1, lo =>
    if 2 ^ (lo + 2 ^ k) ≤ n then log2Search n k (lo + 2 ^ k) else log2Search n k lo

/-- The least `j` (counting up from the given one) with `n < 2^(2^j)`: the
number of bits `⌊log2 n⌋` needs. -/
def log2Width (n : Nat) : Nat → Nat → Nat
  | 0, j => j
  | fuel + 1, j => if n < 2 ^ (2 ^ j) then j else log2Width n fuel (j + 1)

/-- Number of binary digits of `n` (`0` for `n = 0`). -/
def bitLength (n : Nat) : Nat :=
  if n = 0 then 0 else log2Search n (log2Width n n 0) 0 + 1

/-- The power `2^k` for `k ≥ 0`, and `1` for negative `k`. -/
def pow2 (k : Int) : Nat := 2 ^ k.toNat

/-- The zero of the given sign. -/
def zero (neg : Bool) : Dbl := fin neg 0 (-1074)

/-- Quotient, remainder and divisor of `num / (den * 2^e)`. -/
def scaled (num den : Nat) (e : Int) : Nat × Nat × Nat :=
  let n := num * pow2 (-e)
  let d := den * pow2 e
  (n / d, n % d, d)

/-- The exponent at which `num / den` (both nonzero) is rounded: the `e` with
`2^52 ≤ num / (den * 2^e) < 2^53`, and `-1074`, the exponent of the
subnormals, when that `e` is smaller. -/
def roundExponent (num den : Nat) : Int :=
  let e0 : Int := (bitLength num : Int) - (bitLength den : Int) - 52
  max (if (scaled num den e0).1 < 2 ^ 52 then e0 - 1 else e0) (-1074)

/-- The integer nearest to `q + r / d`, ties to even (`r < d`). -/
def roundQuotient (q r d : Nat) : Nat :=
  if 2 * r < d then q else if d < 2 * r then q + 1 else if q % 2 = 0 then q else q + 1

/-- The `double` with sign `neg`, rounded significand `m ≤ 2^53` and exponent
`e`: a significand of `2^53` is renormalised, and an exponent above `971`
overflows to infinity. -/
def finish (neg : Bool) (m : Nat) (e : Int) : Dbl :=
  if m = 2 ^ 53 then (if 971 < e + 1 then inf neg else fin neg (2 ^ 52) (e + 1))
  else if 971 < e then inf neg else fin neg m e

/-- The `double` nearest to `(-1)^neg * num / den`, ties to even: the rounding
every arithmetic operation applies to its exact result. -/
def roundNearestEven (neg : Bool) (num den : Nat) : Dbl :=
  if num = 0 ∨ den = 0 then zero neg else
  let e := roundExponent num den
  let s := scaled num den e
  finish neg (roundQuotient s.1 s.2.1 s.2.2) e

/-- Addition `x + y` on `double`: adding a zero leaves the other operand as it is, two
zeros give `-0.0` only when both are negative, and an exact sum of zero of two
nonzero operands is `+0.0`. -/
def add : Dbl → Dbl → Dbl
  | nan, _ => nan
  | _, nan => nan
  | inf s, inf t => if s = t then inf s else nan
  | inf s, fin _ _ _ => inf s
  | fin _ _ _, inf t => inf t
  | fin s m e, fin t k f =>
    if m = 0 then (if k = 0 then zero (s && t) else fin t k f) else
    if k = 0 then fin s m e else
    let g := min e f
    let a : Int := (if s then -1 else 1) * (m * pow2 (e - g) : Nat)
    let b : Int := (if t then -1 else 1) * (k * pow2 (f - g) : Nat)
    let c := a + b
    if c = 0 then zero (s && t)
    else roundNearestEven (decide (c < 0)) (c.natAbs * pow2 g) (pow2 (-g))

/-- Multiplication `x * y` on `double`: infinity times zero is NaN, and the
sign of every other result is the exclusive or of the signs. -/
def mul : Dbl → Dbl → Dbl
  | nan, _ => nan
  | _, nan => nan
  | inf s, inf t => inf (xor s t)
  | inf s, fin t k _ => if k = 0 then nan else inf (xor s t)
  | fin s m _, inf t => if m = 0 then nan else inf (xor s t)
  | fin s m e, fin t k f =>
    roundNearestEven (xor s t) (m * k * pow2 (e + f)) (pow2 (-(e + f)))

/-- Division `x / y` on `double`; a division by zero does not trap: it yields an
infinity, or NaN for `0/0`. -/
def div : Dbl → Dbl → Dbl
  | nan, _ => nan
  | _, nan => nan
  | inf _, inf _ => nan
  | inf s, fin t _ _ => inf (xor s t)
  | fin s _ _, inf t => zero (xor s t)
  | fin s m e, fin t k f =>
    if k = 0 then (if m = 0 then nan else inf (xor s t))
    else roundNearestEven (xor s t) (m * pow2 (e - f)) (k * pow2 (f - e))

/-- The `double` nearest to `(-1)^neg * num / den`, for writing literals: `2.0`
is `lit false 2 1`, `0.5` is `lit false 1 2`. -/
def lit (neg : Bool) (num den : Nat) : Dbl := roundNearestEven neg num den

/-- Test that `x` is `+0.0` or `-0.0` (the values for which `x == 0.0` holds in C). -/
def isZero : Dbl → Bool
  | fin _ 0 _ => true
  | _ => false

/-- Test that `x` is NaN. -/
def isNaN : Dbl → Bool
  | nan => true
  | _ => false

/-- Test that `x` is neither NaN nor an infinity. -/
def isFinite : Dbl → Bool
  | fin _ _ _ => true
  | _ => false

/-- Test that `x` is finite, in canonical form, and of magnitude below `2^128`,
as every finite `float` is. -/
def inFloatRange : Dbl → Bool
  | fin _ m e => decide (m < 2 ^ 53) && decide (e ≤ 75)
  | _ => false

/-- Test that `x` is an infinity. -/
def isInf : Dbl → Bool
  | inf _ => true
  | _ => false

end Dbl

/-! ## energy_p.c -/

/-- The calls `energy_p` makes into the rest of the program, in the order it
makes them. -/
inductive Event where
  /-- The call `dispatch_pipelines( energy_p_pipeline_v4, args, 0 )`. -/
  | dispatch_pipelines
  /-- The call `energy_p_pipeline( args, rank, n_pipeline )` made by the host. -/
  | energy_p_pipeline (rank n_pipeline : Nat)
  /-- The call `wait_for_pipelines()`. -/
  | wait_for_pipelines
  /-- The call `mp_allsum_d( &local, &global, 1, g->mp )`. -/
  | mp_allsum_d
  deriving DecidableEq

/-- The communicator `g->mp` as this process sees it in the collective: the
local sums the processes of lower and of higher rank contribute. -/
structure mp_t where
  lower : List Dbl
  upper : List Dbl

/-- The fields of `grid_t` that `energy_p` reads: `float cvac` and `mp`. -/
structure grid_t where
  cvac : Dbl
  mp : mp_t

/-- The structure `energy_p_pipeline_args_t`: the five inputs `energy_p` stores
and the partial results `en[rank]`. -/
structure energy_p_pipeline_args_t (Particle Interp : Type) where
  p : List Particle
  n : Int
  q_m : Dbl
  f : Interp
  g : grid_t
  en : Nat → Dbl

/-- What `energy_p` takes from `particle_pipelines.h`, which is not among the
sources: the number of pipelines `_n_pipeline`, the value each of the two
pipeline functions computes for `(args, pipeline_rank, n_pipeline)` and stores
in `args->en[pipeline_rank]`, and the indeterminate initial contents of the
stack array `args->en`. -/
structure Env (Particle Interp : Type) where
  n_pipeline : Nat
  energy_p_pipeline_v4 : energy_p_pipeline_args_t Particle Interp → Nat → Nat → Dbl
  energy_p_pipeline : energy_p_pipeline_args_t Particle Interp → Nat → Nat → Dbl
  en0 : Nat → Dbl

/-- The assignment `args->en[rank] = v`. -/
def store_en {Particle Interp : Type} (args : energy_p_pipeline_args_t Particle Interp)
    (rank : Nat) (v : Dbl) : energy_p_pipeline_args_t Particle Interp :=
  { args with en := fun i => if i = rank then v else args.en i }

/-- Modelled from the spec: `dispatch_pipelines( pipeline, args, 0 )` followed
by `wait_for_pipelines()` (both declared outside the sources): worker `rank`,
for `rank = 0 .. n_pipeline-1`, runs `pipeline( args, rank, n_pipeline )`, and
each worker writes its own partial-result slot `en[rank]` and nothing else. -/
def dispatch_pipelines {Particle Interp : Type}
    (pipeline : energy_p_pipeline_args_t Particle Interp → Nat → Nat → Dbl)
    (n_pipeline : Nat) (args : energy_p_pipeline_args_t Particle Interp) :
    energy_p_pipeline_args_t Particle Interp :=
  (List.range n_pipeline).foldl (fun a rank => store_en a rank (pipeline a rank n_pipeline)) args

/-- The loop `for( rank=0; rank<=_n_pipeline; rank++ ) local += args->en[rank];`
with `todo` iterations left (it starts with `todo = _n_pipeline + 1`, `rank = 0`). -/
def sum_en (en : Nat → Dbl) : Nat → Nat → Dbl → Dbl
  | 0, _, loc => loc
  | todo + 1, rank, loc => sum_en en todo (rank + 1) (Dbl.add loc (en rank))

/-- The sum of a list of contributions, first to last. -/
def sum_ranks : List Dbl → Dbl
  | [] => Dbl.zero false
  | x :: xs => xs.foldl Dbl.add x

/-- Modelled from the spec: `mp_allsum_d( &local, &global, 1, mp )` (declared
outside the sources), the blocking sum-reducing collective: `global` is the
sum of the local values of all processes, taken here in rank order. -/
def mp_allsum_d (loc : Dbl) (mp : mp_t) : Dbl := sum_ranks (mp.lower ++ loc :: mp.upper)

/-- What a call of `energy_p` produces: the returned `double`, or the message of
the validation `ERROR` that ended the call, and the trace of the calls made. -/
structure Outcome where
  result : Except String Dbl
  trace : List Event

/-- The function `energy_p`.  Modelled from the spec: the macro `ERROR` (from
`common.h`, not among the sources) reports its message and is fatal, so the
call ends there.  `p` is the particle array, `f` and `g` are pointers, `none`
being `NULL`; `q_m` is a `float`. -/
def energy_p {Particle Interp : Type} (env : Env Particle Interp)
    (p : List Particle) (n : Int) (q_m : Dbl) (f : Option Interp) (g : Option grid_t) :
    Outcome :=
  if n < 0 then ⟨Except.error "Bad number of particles", []⟩ else
  match f with
  | none => ⟨Except.error "Bad interpolator", []⟩
  | some fi =>
    match g with
    | none => ⟨Except.error "Bad grid", []⟩
    | some gr =>
      let args : energy_p_pipeline_args_t Particle Interp :=
        { p := p, n := n, q_m := q_m, f := fi, g := gr, en := env.en0 }
      let args := dispatch_pipelines env.energy_p_pipeline_v4 env.n_pipeline args
      let trace := [Event.dispatch_pipelines]
      let args := store_en args env.n_pipeline
        (env.energy_p_pipeline args env.n_pipeline env.n_pipeline)
      let trace := trace ++ [Event.energy_p_pipeline env.n_pipeline env.n_pipeline]
      let trace := trace ++ [Event.wait_for_pipelines]
      let loc := sum_en args.en (env.n_pipeline + 1) 0 (Dbl.zero false)
      let glob := mp_allsum_d loc gr.mp
      let trace := trace ++ [Event.mp_allsum_d]
      ⟨Except.ok (Dbl.div (Dbl.mul (Dbl.mul gr.cvac gr.cvac) glob) q_m), trace⟩

/-- Two states of `args` hold the same five inputs `p`, `n`, `q_m`, `f`, `g`. -/
def same_inputs {Particle Interp : Type} (a b : energy_p_pipeline_args_t Particle Interp) :
    Prop :=
  a.p = b.p ∧ a.n = b.n ∧ a.q_m = b.q_m ∧ a.f = b.f ∧ a.g = b.g

/-- The partial results `args->en` as `energy_p` finds them after the dispatch,
the host pipeline and the wait. -/
def en_after {Particle Interp : Type} (env : Env Particle Interp)
    (p : List Particle) (n : Int) (q_m : Dbl) (fi : Interp) (gr : grid_t) : Nat → Dbl :=
  let args : energy_p_pipeline_args_t Particle Interp :=
    { p := p, n := n, q_m := q_m, f := fi, g := gr, en := env.en0 }
  let args := dispatch_pipelines env.energy_p_pipeline_v4 env.n_pipeline args
  (store_en args env.n_pipeline (env.energy_p_pipeline args env.n_pipeline env.n_pipeline)).en

/-- The value of `local` when `energy_p` passes it to the collective. -/
def local_sum {Particle Interp : Type} (env : Env Particle Interp)
    (p : List Particle) (n : Int) (q_m : Dbl) (fi : Interp) (gr : grid_t) : Dbl :=
  sum_en (en_after env p n q_m fi gr) (env.n_pipeline + 1) 0 (Dbl.zero false)

/-- The left fold `(..((0 + x0) + x1) + ..) + xk` of the aggregation
order in the specification. -/
def fold_sum (xs : List Dbl) : Dbl := xs.foldl Dbl.add (Dbl.zero false)

/-- Modelled from the spec: how the particles are divided (the partition is
computed in `particle_pipelines.h` and the pipelines, not among the sources):
for `n` particles and `n_pipeline` workers, pipeline `rank` is given the
`count` particles from index `first` on, all of them among the `n` particles. -/
structure Partition where
  first : Int → Nat → Nat → Nat
  count : Int → Nat → Nat → Nat
  within : ∀ (n : Int) (n_pipeline rank : Nat),
    ((first n n_pipeline rank + count n n_pipeline rank : Nat) : Int) ≤ max n 0

/-- Modelled from the spec: a pipeline (`energy_p_pipeline` and
`energy_p_pipeline_v4` are not among the sources) computes the partial sum,
from `0`, of the per-particle kinetic energy `ke` over its slice. -/
def slice_energy {Particle Interp : Type} (ke : Interp → Dbl → Particle → Dbl)
    (part : Partition) (args : energy_p_pipeline_args_t Particle Interp)
    (rank n_pipeline : Nat) : Dbl :=
  (((args.p.drop (part.first args.n n_pipeline rank)).take
      (part.count args.n n_pipeline rank)).map (ke args.f args.q_m)).foldl
    Dbl.add (Dbl.zero false)

/-- Modelled from the spec: the environment in which both pipeline functions
sum the per-particle energy over their slice of the partition. -/
def sliceEnv {Particle Interp : Type} (n_pipeline : Nat)
    (ke : Interp → Dbl → Particle → Dbl) (part : Partition) (en0 : Nat → Dbl) :
    Env Particle Interp :=
  { n_pipeline := n_pipeline
    energy_p_pipeline_v4 := slice_energy ke part
    energy_p_pipeline := slice_energy ke part
    en0 := en0 }

/-- A mock process for the cross-rank scenario: one worker pipeline reporting
`worker`, the host pipeline reporting `host`. -/
def mockEnv (worker host : Dbl) : Env Unit Unit :=
  { n_pipeline := 1
    energy_p_pipeline_v4 := fun _ _ _ => worker
    energy_p_pipeline := fun _ _ _ => host
    en0 := fun _ => Dbl.nan }

/-- A partition in which the workers are given nothing and the host is given
all `n` particles: the smallest instance of the partition of the specification. -/
def hostOnlyPartition : Partition :=
  { first := fun _ _ _ => 0
    count := fun n n_pipeline rank => if rank = n_pipeline then n.toNat else 0
    within := by
      intro n n_pipeline rank
      by_cases h : rank = n_pipeline
      · simp only [h, if_true]; omega
      · simp only [h, if_false]; omega }

/-! ## emitter.h: component classes -/

/-- Modelled from the spec: the three offsets `(dx, dy, dz)` reconstructed from
a type code, the inverse of `component_type` (`dx` runs fastest, as in a
FORTRAN index); the header names the indexing and has no code for it. -/
def component_offsets (type_code : Int) : Int × Int × Int :=
  (type_code % 3 - 1, type_code / 3 % 3 - 1, type_code / 9 - 1)

/-- The four kinds of component the header comment lists: the cell body, the 6
faces, the 12 edges and the 8 corners. -/
inductive ComponentClass where
  | Body
  | Face
  | Edge
  | Corner
  deriving DecidableEq

/-- Modelled from the spec: the number of nonzero offsets of a type code. -/
def nonzero_offsets (type_code : Int) : Nat :=
  (if (component_offsets type_code).1 = 0 then 0 else 1) +
  (if (component_offsets type_code).2.1 = 0 then 0 else 1) +
  (if (component_offsets type_code).2.2 = 0 then 0 else 1)

/-- Modelled from the spec: the operation `classify(type_code)`, which has no
code in the header: 0 nonzero offsets is the body, 1 a face, 2 an edge and 3 a
corner. -/
def classify (type_code : Int) : ComponentClass :=
  match nonzero_offsets type_code with
  | 0 => ComponentClass.Body
  | 1 => ComponentClass.Face
  | 2 => ComponentClass.Edge
  | _ => ComponentClass.Corner

/-- The type codes `0 .. 26`. -/
def valid_type_codes : List Int := (List.range 27).map (fun k => (k : Int))

/-! ## emitter.h: the parameter block -/

/-- Macro `#define MAX_EMISSION_MODEL_SIZE 1024`, the size in bytes of
`emitter_t.model_parameters`. -/
def MAX_EMISSION_MODEL_SIZE : Nat := 1024

/-- The scalar types of the fields of the three parameter structs. -/
inductive CScalar where
  | int
  | float
  deriving DecidableEq

/-- The size in bytes of a scalar, which is also its alignment, on a platform
whose `int` has `int_size` bytes and whose `float` has `float_size` bytes. -/
def CScalar.size (int_size float_size : Nat) : CScalar → Nat
  | CScalar.int => int_size
  | CScalar.float => float_size

/-- The least multiple of `align` that is at least `offset`. -/
def align_up (offset align : Nat) : Nat := (offset + align - 1) / align * align

/-- The offset just past the last field when the fields are laid out in
declaration order, each at the next multiple of its alignment. -/
def fields_end (int_size float_size : Nat) : List CScalar → Nat → Nat
  | [], offset => offset
  | t :: ts, offset =>
    fields_end int_size float_size ts
      (align_up offset (t.size int_size float_size) + t.size int_size float_size)

/-- The value of `sizeof` for a struct of scalar fields: the end of the last
field, rounded up to the largest alignment among the fields. -/
def sizeof_struct (int_size float_size : Nat) (fields : List CScalar) : Nat :=
  align_up (fields_end int_size float_size fields 0)
    ((fields.map (CScalar.size int_size float_size)).foldl max 1)

/-- The struct `child_langmuir_t`: `int n_emit_per_face; float ut_perp;
float ut_para;`. -/
def child_langmuir_t : List CScalar := [CScalar.int, CScalar.float, CScalar.float]

/-- The struct `ccube_t`: `int n_emit_per_face; float ut_perp; float ut_para;
float thresh_e_norm;`. -/
def ccube_t : List CScalar := [CScalar.int, CScalar.float, CScalar.float, CScalar.float]

/-- The struct `ivory_t`: `int n_emit_per_face; float ut_perp; float ut_para;
float thresh_e_norm;`. -/
def ivory_t : List CScalar := [CScalar.int, CScalar.float, CScalar.float, CScalar.float]

/-! ## emitter.h: emitters and their registry -/

/-- The three emission models the header declares. -/
inductive EmissionModel where
  | child_langmuir
  | ccube
  | ivory
  deriving DecidableEq

/-- The struct `emitter_t`: the component ids in use (`component[0 ..
n_component-1]`), `n_component`, `max_component`, the species (by its
identity), the emission model and the name.  The parameter block is opaque and
left out, and the link `next` is the order of the list that holds the
emitters. -/
structure emitter_t where
  component : List Int
  n_component : Int
  max_component : Int
  sp : Nat
  emission_model : EmissionModel
  name : String
  deriving DecidableEq

/-- The failures of the registry operations that the specification names. -/
inductive RegistryError where
  | DuplicateName
  | CapacityError
  | CapacityExceeded
  deriving DecidableEq

/-- Modelled from the spec: `find_emitter_name( name, e_list )` (declared in the
header, defined in `structors.c`, not among the sources): a linear scan in
which the first match wins. -/
def find_emitter_name (name : String) (e_list : List emitter_t) : Option emitter_t :=
  e_list.find? (fun e => decide (e.name = name))

/-- Modelled from the spec: `new_emitter( name, sp, emission_model,
max_component, e_list )` (declared in the header, defined in `structors.c`, not
among the sources): it fails with `DuplicateName` if the name is already
present and with `CapacityError` if `max_component` is not positive, and leaves
the list as it is; otherwise it prepends a new emitter with no component.  The
second component of the result is the list after the call. -/
def new_emitter (name : String) (sp : Nat) (emission_model : EmissionModel)
    (max_component : Int) (e_list : List emitter_t) :
    Except RegistryError emitter_t × List emitter_t :=
  if (find_emitter_name name e_list).isSome then
    (Except.error RegistryError.DuplicateName, e_list)
  else if max_component ≤ 0 then
    (Except.error RegistryError.CapacityError, e_list)
  else
    let e : emitter_t :=
      { component := [], n_component := 0, max_component := max_component, sp := sp,
        emission_model := emission_model, name := name }
    (Except.ok e, e :: e_list)

/-- Modelled from the spec: `add_component( emitter, id )`, which has no
declaration in the header: it fails with `CapacityExceeded` if `n_component ==
max_component` and leaves the emitter as it is; otherwise it appends the id and
increments `n_component`.  The second component of the result is the emitter
after the call. -/
def add_component (e : emitter_t) (id : Int) : Except RegistryError Unit × emitter_t :=
  if e.n_component = e.max_component then
    (Except.error RegistryError.CapacityExceeded, e)
  else
    (Except.ok (), { e with component := e.component ++ [id], n_component := e.n_component + 1 })

/-- The emitter after the ids of a list are added one after the other, failed
additions included. -/
def add_components (e : emitter_t) : List Int → emitter_t
  | [] => e
  | id :: ids => add_components (add_component e id).2 ids

/-- The number of emitters of a list that bear a name. -/
def count_name (name : String) (e_list : List emitter_t) : Nat :=
  (e_list.filter (fun e => decide (e.name = name))).length

/-- No two emitters of the list bear the same name. -/
def distinct_names (e_list : List emitter_t) : Prop :=
  (e_list.map (fun e => e.name)).Nodup

instance (e_list : List emitter_t) : Decidable (distinct_names e_list) :=
  inferInstanceAs (Decidable ((e_list.map (fun (e : emitter_t) => e.name)).Nodup))

/-! ## The work partition of the pipelines -/

/-- Modelled from the spec: the number of whole quads among `n` particles, the
particles being grouped into quads of 4. -/
def n_quad (n : Int) : Nat := n.toNat / 4

/-- Modelled from the spec: the first quad of worker `rank` when the whole
quads are divided in contiguous rank order across the `n_pipeline` workers:
worker `rank` is given the quads from `quad_first rank` up to, not including,
`quad_first (rank + 1)`, the first worker starts at quad 0 and the last one ends
at quad `n_quad`, so that the workers hold every whole quad and their shares
differ by at most one quad.  With no worker no quad is handed out. -/
def quad_first (n : Int) (n_pipeline rank : Nat) : Nat :=
  if n_pipeline = 0 then 0 else min rank n_pipeline * n_quad n / n_pipeline

/-- Modelled from the spec: the work partition (computed in
`particle_pipelines.h` and the pipelines, not among the sources; `energy_p.c`
has the comment that the pipelines do the bulk of the particles in quads and
the host does the final incomplete quad): worker `rank` (`rank < n_pipeline`)
is given the particles of its quads, from index `4 * quad_first rank` on, and
the host (`rank = n_pipeline`) is given the particles that remain after the
slice of the last worker, up to index `n`. -/
def quadPartition : Partition :=
  { first := fun n n_pipeline rank => 4 * quad_first n n_pipeline rank
    count := fun n n_pipeline rank =>
      if rank < n_pipeline then
        4 * (quad_first n n_pipeline (rank + 1) - quad_first n n_pipeline rank)
      else if rank = n_pipeline then n.toNat - 4 * quad_first n n_pipeline n_pipeline
      else 0
    within := by
      intro n n_pipeline rank
      have hq : ∀ r, 4 * quad_first n n_pipeline r ≤ n.toNat := by
        intro r
        unfold quad_first n_quad
        by_cases h0 : n_pipeline = 0
        · rw [if_pos h0]; omega
        · rw [if_neg h0]
          have h1 : min r n_pipeline * (n.toNat / 4) ≤ n_pipeline * (n.toNat / 4) :=
            Nat.mul_le_mul_right _ (Nat.min_le_right _ _)
          have h2 : min r n_pipeline * (n.toNat / 4) / n_pipeline ≤ n.toNat / 4 := by
            apply Nat.div_le_of_le_mul
            exact h1
          omega
      have h1 := hq rank
      have h2 := hq (rank + 1)
      by_cases hr : rank < n_pipeline
      · simp only [hr, if_true]
        omega
      · by_cases hr2 : rank = n_pipeline
        · subst hr2
          simp only [lt_irrefl, if_false, if_true]
          omega
        · simp only [hr, hr2, if_false]
          omega }

/-- Modelled from the spec: the particles of the slice of pipeline `rank`, the
ones over which `slice_energy` sums. -/
def slice {Particle : Type} (part : Partition) (p : List Particle) (n : Int)
    (n_pipeline rank : Nat) : List Particle :=
  (p.drop (part.first n n_pipeline rank)).take (part.count n n_pipeline rank)

/-! ## v4_portable.hpp: the class v4 and its memory functions -/

/-- The `v4` objects of a program: `s r k` is the lane `i[k]` of the object of
identity `r`; two references denote the same object exactly when the
identities are equal.  The lanes are C `int` values. -/
abbrev V4State := Nat → Fin 4 → Int

/-- The `int` memory that the `void *` arguments address, in units of one
`int`: `m (p + k)` is `((const int *)p)[k]`.  The `v4` objects are objects of
their own and not part of this memory. -/
abbrev IntMem := Nat → Int

/-- The assignment `r.i[k] = v`. -/
def set_lane (s : V4State) (r : Nat) (k : Fin 4) (v : Int) : V4State :=
  fun r2 k2 => if r2 = r ∧ k2 = k then v else s r2 k2

/-- The assignment `((int *)p)[k] = v`, `addr` being `p + k`. -/
def set_mem (m : IntMem) (addr : Nat) (v : Int) : IntMem :=
  fun x => if x = addr then v else m x

/-- The assignment `x ^= y` for the lanes `x = r.i[k]` and `y = r2.i[k2]`. -/
def xor_assign (s : V4State) (r : Nat) (k : Fin 4) (r2 : Nat) (k2 : Fin 4) : V4State :=
  set_lane s r k (Int.xor (s r k) (s r2 k2))

/-- Macro `# define sw(x,y) x^=y, y^=x, x^=y` for the lanes `x = r.i[k]` and
`y = r2.i[k2]`. -/
def sw (s : V4State) (r : Nat) (k : Fin 4) (r2 : Nat) (k2 : Fin 4) : V4State :=
  let s := xor_assign s r k r2 k2
  let s := xor_assign s r2 k2 r k
  xor_assign s r k r2 k2

/-- The function `transpose( v4 &a0, v4 &a1, v4 &a2, v4 &a3 )`: six `sw`. -/
def transpose (s : V4State) (a0 a1 a2 a3 : Nat) : V4State :=
  let s := sw s a0 1 a1 0
  let s := sw s a0 2 a2 0
  let s := sw s a0 3 a3 0
  let s := sw s a1 2 a2 1
  let s := sw s a1 3 a3 1
  sw s a2 3 a3 2

/-- The function `load( const void *p, v4 &a )`. -/
def load (m : IntMem) (s : V4State) (p a : Nat) : V4State :=
  let s := set_lane s a 0 (m (p + 0))
  let s := set_lane s a 1 (m (p + 1))
  let s := set_lane s a 2 (m (p + 2))
  set_lane s a 3 (m (p + 3))

/-- The function `half_swizzle( a0, a1, a2, a3, v4 &a, v4 &b )`. -/
def half_swizzle (m : IntMem) (s : V4State) (a0 a1 a2 a3 a b : Nat) : V4State :=
  let s := set_lane s a 0 (m (a0 + 0))
  let s := set_lane s b 0 (m (a0 + 1))
  let s := set_lane s a 1 (m (a1 + 0))
  let s := set_lane s b 1 (m (a1 + 1))
  let s := set_lane s a 2 (m (a2 + 0))
  let s := set_lane s b 2 (m (a2 + 1))
  let s := set_lane s a 3 (m (a3 + 0))
  set_lane s b 3 (m (a3 + 1))

/-- The function `swizzle( a0, a1, a2, a3, v4 &a, v4 &b, v4 &c, v4 &d )`. -/
def swizzle (m : IntMem) (s : V4State) (a0 a1 a2 a3 a b c d : Nat) : V4State :=
  let s := set_lane s a 0 (m (a0 + 0))
  let s := set_lane s b 0 (m (a0 + 1))
  let s := set_lane s c 0 (m (a0 + 2))
  let s := set_lane s d 0 (m (a0 + 3))
  let s := set_lane s a 1 (m (a1 + 0))
  let s := set_lane s b 1 (m (a1 + 1))
  let s := set_lane s c 1 (m (a1 + 2))
  let s := set_lane s d 1 (m (a1 + 3))
  let s := set_lane s a 2 (m (a2 + 0))
  let s := set_lane s b 2 (m (a2 + 1))
  let s := set_lane s c 2 (m (a2 + 2))
  let s := set_lane s d 2 (m (a2 + 3))
  let s := set_lane s a 3 (m (a3 + 0))
  let s := set_lane s b 3 (m (a3 + 1))
  let s := set_lane s c 3 (m (a3 + 2))
  set_lane s d 3 (m (a3 + 3))

/-- The function `deswizzle( a, b, c, d, void *a0, void *a1, void *a2,
void *a3 )`. -/
def deswizzle (s : V4State) (m : IntMem) (a b c d a0 a1 a2 a3 : Nat) : IntMem :=
  let m := set_mem m (a0 + 0) (s a 0)
  let m := set_mem m (a0 + 1) (s b 0)
  let m := set_mem m (a0 + 2) (s c 0)
  let m := set_mem m (a0 + 3) (s d 0)
  let m := set_mem m (a1 + 0) (s a 1)
  let m := set_mem m (a1 + 1) (s b 1)
  let m := set_mem m (a1 + 2) (s c 1)
  let m := set_mem m (a1 + 3) (s d 1)
  let m := set_mem m (a2 + 0) (s a 2)
  let m := set_mem m (a2 + 1) (s b 2)
  let m := set_mem m (a2 + 2) (s c 2)
  let m := set_mem m (a2 + 3) (s d 2)
  let m := set_mem m (a3 + 0) (s a 3)
  let m := set_mem m (a3 + 1) (s b 3)
  let m := set_mem m (a3 + 2) (s c 3)
  set_mem m (a3 + 3) (s d 3)

/-- The `r`-th of four references. -/
def vref (a0 a1 a2 a3 : Nat) (r : Fin 4) : Nat :=
  match r with
  | 0 => a0
  | 1 => a1
  | 2 => a2
  | 3 => a3

/-- Four references denote four different objects. -/
def distinct4 (a b c d : Nat) : Prop :=
  a ≠ b ∧ a ≠ c ∧ a ≠ d ∧ b ≠ c ∧ b ≠ d ∧ c ≠ d

instance (a b c d : Nat) : Decidable (distinct4 a b c d) :=
  inferInstanceAs (Decidable (a ≠ b ∧ a ≠ c ∧ a ≠ d ∧ b ≠ c ∧ b ≠ d ∧ c ≠ d))

/-- Two rows of 4 `int` do not overlap. -/
def rows_apart (p q : Nat) : Prop := p + 4 ≤ q ∨ q + 4 ≤ p

instance (p q : Nat) : Decidable (rows_apart p q) :=
  inferInstanceAs (Decidable (p + 4 ≤ q ∨ q + 4 ≤ p))

/-- Four rows of 4 `int` are pairwise non-overlapping. -/
def rows_apart4 (q0 q1 q2 q3 : Nat) : Prop :=
  rows_apart q0 q1 ∧ rows_apart q0 q2 ∧ rows_apart q0 q3 ∧
  rows_apart q1 q2 ∧ rows_apart q1 q3 ∧ rows_apart q2 q3

instance (q0 q1 q2 q3 : Nat) : Decidable (rows_apart4 q0 q1 q2 q3) :=
  inferInstanceAs (Decidable (rows_apart q0 q1 ∧ rows_apart q0 q2 ∧ rows_apart q0 q3 ∧
    rows_apart q1 q2 ∧ rows_apart q1 q3 ∧ rows_apart q2 q3))

/-! ## v4_portable.hpp: conditional moves -/

/-- The function `cmov( const v4 &c, const v4 &a, v4 &b )`: four assignments
`b.i[k] = (b.i[k] & ~c.i[k]) | (a.i[k] & c.i[k])`. -/
def cmov (s : V4State) (c a b : Nat) : V4State :=
  let s := set_lane s b 0 (Int.lor (Int.land (s b 0) (Int.lnot (s c 0))) (Int.land (s a 0) (s c 0)))
  let s := set_lane s b 1 (Int.lor (Int.land (s b 1) (Int.lnot (s c 1))) (Int.land (s a 1) (s c 1)))
  let s := set_lane s b 2 (Int.lor (Int.land (s b 2) (Int.lnot (s c 2))) (Int.land (s a 2) (s c 2)))
  set_lane s b 3 (Int.lor (Int.land (s b 3) (Int.lnot (s c 3))) (Int.land (s a 3) (s c 3)))

/-- The function `czero( const v4 &c, v4 &a )`: four assignments
`a.i[k] = a.i[k] & ~c.i[k]`. -/
def czero (s : V4State) (c a : Nat) : V4State :=
  let s := set_lane s a 0 (Int.land (s a 0) (Int.lnot (s c 0)))
  let s := set_lane s a 1 (Int.land (s a 1) (Int.lnot (s c 1)))
  let s := set_lane s a 2 (Int.land (s a 2) (Int.lnot (s c 2)))
  set_lane s a 3 (Int.land (s a 3) (Int.lnot (s c 3)))

/-- The function `notcmov( const v4 &c, const v4 &a, v4 &b )`: four assignments
`b.i[k] = (b.i[k] & c.i[k]) | (a.i[k] & ~c.i[k])`. -/
def notcmov (s : V4State) (c a b : Nat) : V4State :=
  let s := set_lane s b 0 (Int.lor (Int.land (s b 0) (s c 0)) (Int.land (s a 0) (Int.lnot (s c 0))))
  let s := set_lane s b 1 (Int.lor (Int.land (s b 1) (s c 1)) (Int.land (s a 1) (Int.lnot (s c 1))))
  let s := set_lane s b 2 (Int.lor (Int.land (s b 2) (s c 2)) (Int.land (s a 2) (Int.lnot (s c 2))))
  set_lane s b 3 (Int.lor (Int.land (s b 3) (s c 3)) (Int.land (s a 3) (Int.lnot (s c 3))))

/-- The function `notczero( const v4 &c, v4 &a )`: four assignments
`a.i[k] = a.i[k] & c.i[k]`. -/
def notczero (s : V4State) (c a : Nat) : V4State :=
  let s := set_lane s a 0 (Int.land (s a 0) (s c 0))
  let s := set_lane s a 1 (Int.land (s a 1) (s c 1))
  let s := set_lane s a 2 (Int.land (s a 2) (s c 2))
  set_lane s a 3 (Int.land (s a 3) (s c 3))

/-! ## v4_portable.hpp: the classes v4int and v4float -/

/-- The value of a `v4` object: its four `int` lanes `i[0..3]`.  Through the
union `{ int i[4]; float f[4]; }` the lane `f[k]` is the `float` whose 32 bits
are `i[k]`. -/
abbrev V4 := Fin 4 → Int

/-- The vector with the lanes `x0, x1, x2, x3`. -/
def mk_v4 (x0 x1 x2 x3 : Int) : V4 := fun k =>
  match k with
  | 0 => x0
  | 1 => x1
  | 2 => x2
  | 3 => x3

/-- The state in which the object `r` (a temporary, say) holds the value `v`. -/
def put_v4 (s : V4State) (r : Nat) (v : V4) : V4State :=
  fun r2 k => if r2 = r then v k else s r2 k

/-- The operator `~` of `v4int` (`prefix_unary(~)`): four lanes `(~ i[k])`. -/
def v4int_compl (a : V4) : V4 :=
  mk_v4 (Int.lnot (a 0)) (Int.lnot (a 1)) (Int.lnot (a 2)) (Int.lnot (a 3))

/-- The operator `!` of `v4int`: four lanes `i[k] ? 0 : -1`. -/
def v4int_lognot (a : V4) : V4 :=
  mk_v4 (if a 0 ≠ 0 then 0 else -1) (if a 1 ≠ 0 then 0 else -1)
    (if a 2 ≠ 0 then 0 else -1) (if a 3 ≠ 0 then 0 else -1)

/-- The macro `binary_logical(op)` of the class `v4int`: four lanes
`(i[k] op b.i[k]) ? -1 : 0`, for the scalar predicate `op` on `int`. -/
def v4int_binary_logical (op : Int → Int → Bool) (a b : V4) : V4 :=
  mk_v4 (if op (a 0) (b 0) then -1 else 0) (if op (a 1) (b 1) then -1 else 0)
    (if op (a 2) (b 2) then -1 else 0) (if op (a 3) (b 3) then -1 else 0)

/-- The macro `binary_logical(op)` of the class `v4float`: its body names the
`int` lanes `i[k]` and `b.i[k]` of the union, not the `float` lanes, so `op` is
the scalar predicate on `int` here too. -/
def v4float_binary_logical (op : Int → Int → Bool) (a b : V4) : V4 :=
  mk_v4 (if op (a 0) (b 0) then -1 else 0) (if op (a 1) (b 1) then -1 else 0)
    (if op (a 2) (b 2) then -1 else 0) (if op (a 3) (b 3) then -1 else 0)

/-- The eight operators that `binary_logical` is expanded for. -/
inductive LogicalOp where
  | lt
  | gt
  | eq
  | ne
  | le
  | ge
  | and
  | or
  deriving DecidableEq

/-- The C scalar predicate of each operator on two `int`: the comparisons, and
for `&&` and `||` the truth of the operands (nonzero is true). -/
def LogicalOp.holds : LogicalOp → Int → Int → Bool
  | LogicalOp.lt, x, y => decide (x < y)
  | LogicalOp.gt, x, y => decide (x > y)
  | LogicalOp.eq, x, y => decide (x = y)
  | LogicalOp.ne, x, y => decide (x ≠ y)
  | LogicalOp.le, x, y => decide (x ≤ y)
  | LogicalOp.ge, x, y => decide (x ≥ y)
  | LogicalOp.and, x, y => decide (x ≠ 0) && decide (y ≠ 0)
  | LogicalOp.or, x, y => decide (x ≠ 0) || decide (y ≠ 0)

/-- The operator `a op b` of `v4int`. -/
def v4int_logical (op : LogicalOp) (a b : V4) : V4 := v4int_binary_logical op.holds a b

/-- The operator `a op b` of `v4float`. -/
def v4float_logical (op : LogicalOp) (a b : V4) : V4 := v4float_binary_logical op.holds a b

/-- The function `abs( const v4int &a )`: four lanes
`(a.i[k]>=0) ? a.i[k] : -a.i[k]`, the negation being that of a 32-bit `int`. -/
def v4int_abs (a : V4) : V4 :=
  mk_v4 (if a 0 ≥ 0 then a 0 else toInt32 (-(a 0)))
    (if a 1 ≥ 0 then a 1 else toInt32 (-(a 1)))
    (if a 2 ≥ 0 then a 2 else toInt32 (-(a 2)))
    (if a 3 ≥ 0 then a 3 else toInt32 (-(a 3)))

/-! ## The float view of a lane -/

/-- The `float` that a lane holds when its 32 bits are read as `f[k]`:
IEEE-754 binary32, with the sign in bit 31, the biased exponent in bits 30..23
and the fraction in bits 22..0; the value is given as the `double` equal to
it. -/
def float_of_bits (i : Int) : Dbl :=
  let u : Nat := (i % 4294967296).toNat
  let neg : Bool := decide (2147483648 ≤ u)
  let ex : Nat := u / 8388608 % 256
  let fr : Nat := u % 8388608
  if ex = 255 then (if fr = 0 then Dbl.inf neg else Dbl.nan)
  else if ex = 0 then Dbl.roundNearestEven neg fr (2 ^ 149)
  else if 150 ≤ ex then Dbl.roundNearestEven neg ((8388608 + fr) * 2 ^ (ex - 150)) 1
  else Dbl.roundNearestEven neg (8388608 + fr) (2 ^ (150 - ex))

namespace Dbl

/-- The value `(-1)^neg * m * 2^(e - g)` as an integer, for `g ≤ e`. -/
def scaledInt (neg : Bool) (m : Nat) (e g : Int) : Int :=
  (if neg then -1 else 1) * ((m * pow2 (e - g) : Nat) : Int)

/-- The C comparison `x < y` on floating values: false when either is NaN,
`-0.0 < +0.0` false. -/
def flt : Dbl → Dbl → Bool
  | nan, _ => false
  | _, nan => false
  | inf s, inf t => s && !t
  | inf s, fin _ _ _ => s
  | fin _ _ _, inf t => !t
  | fin s m e, fin t k f =>
    decide (scaledInt s m e (min e f) < scaledInt t k f (min e f))

/-- The C comparison `x == y` on floating values: false when either is NaN,
`-0.0 == +0.0` true. -/
def feq : Dbl → Dbl → Bool
  | nan, _ => false
  | _, nan => false
  | inf s, inf t => decide (s = t)
  | inf _, fin _ _ _ => false
  | fin _ _ _, inf _ => false
  | fin s m e, fin t k f =>
    decide (scaledInt s m e (min e f) = scaledInt t k f (min e f))

end Dbl

/-! ## Bit-level lemmas -/

theorem lor_zero_right (x : Int) : Int.lor x 0 = x := by
  cases x with
  | ofNat m => show ((m ||| 0 : Nat) : Int) = m; simp
  | negSucc m => show Int.negSucc (Nat.ldiff m 0) = Int.negSucc m; simp [Nat.ldiff]

theorem land_zero_right (x : Int) : Int.land x 0 = 0 := by
  cases x with
  | ofNat m => show ((m &&& 0 : Nat) : Int) = 0; simp
  | negSucc m => show ((Nat.ldiff 0 m : Nat) : Int) = 0; simp [Nat.ldiff]

/-- Or-ing a `k`-bit field into a value whose low `k` bits are clear adds it. -/
theorem lor_shifted (k : Nat) : ∀ x t : Int, 0 ≤ t → t < 2 ^ k →
    Int.lor (x * 2 ^ k) t = x * 2 ^ k + t := by
  induction k with
  | zero =>
    intro x t h0 h1
    have : t = 0 := by simp at h1; omega
    subst this
    simp [lor_zero_right]
  | succ k ih =>
    intro x t h0 h1
    have hx : x * 2 ^ (k + 1) = Int.bit false (x * 2 ^ k) := by
      rw [Int.bit_val]; simp [pow_succ]; ring
    have ht : t = Int.bit (Int.bodd t) (Int.div2 t) := (Int.bit_decomp t).symm
    have hd : Int.div2 t = t / 2 := Int.div2_val t
    have h2 : (2:Int) ^ (k+1) = 2 * 2 ^ k := by ring
    have hb0 : 0 ≤ t / 2 := by omega
    have hb1 : t / 2 < 2 ^ k := by omega
    rw [hx]
    conv_lhs => rw [ht]
    rw [Int.lor_bit, hd, ih (x) (t / 2) hb0 hb1]
    rw [Int.bit_val, Int.bit_val]
    have hbt := Int.bodd_add_div2 t
    rw [hd] at hbt
    simp only [Bool.false_or, Bool.cond_false]
    omega

/-- Masking with `2^k - 1` is the remainder modulo `2^k`, also for negative values. -/
theorem land_low_mask (k : Nat) : ∀ x : Int, Int.land x (2 ^ k - 1) = x % 2 ^ k := by
  induction k with
  | zero => intro x; simp [land_zero_right]
  | succ k ih =>
    intro x
    have hm : (2:Int) ^ (k + 1) - 1 = Int.bit true (2 ^ k - 1) := by
      rw [Int.bit_val]; simp [pow_succ]; ring
    have hx : x = Int.bit (Int.bodd x) (Int.div2 x) := (Int.bit_decomp x).symm
    have hd : Int.div2 x = x / 2 := Int.div2_val x
    have hbt := Int.bodd_add_div2 x
    rw [hd] at hbt
    rw [hm]
    conv_lhs => rw [hx]
    rw [Int.land_bit, hd, ih (x / 2), Int.bit_val]
    simp only [Bool.and_true]
    have hpos : (0:Int) < 2 ^ k := by positivity
    have h2 : (2:Int) ^ (k+1) = 2 ^ k * 2 := by ring
    rw [h2]
    have e1 : 2 ^ k * (x / 2 / 2 ^ k) + x / 2 % 2 ^ k = x / 2 := Int.ediv_add_emod _ _
    have r0 : 0 ≤ x / 2 % 2 ^ k := Int.emod_nonneg _ (ne_of_gt hpos)
    have r1 : x / 2 % 2 ^ k < 2 ^ k := Int.emod_lt_of_pos _ hpos
    have hb : (bif x.bodd then (1:Int) else 0) = 0 ∨ (bif x.bodd then (1:Int) else 0) = 1 := by
      cases x.bodd <;> simp
    have key : x / (2 ^ k * 2) = x / 2 / 2 ^ k ∧
        x % (2 ^ k * 2) = 2 * (x / 2 % 2 ^ k) + (bif x.bodd then 1 else 0) := by
      rw [Int.ediv_emod_unique (by positivity)]
      refine ⟨by linarith, by omega, ?_⟩
      rcases hb with hb | hb <;> rw [hb] <;> linarith
    exact key.2.symm

theorem extract_local_cell_eq (id : Int) : EXTRACT_LOCAL_CELL id = id / 32 := by
  unfold EXTRACT_LOCAL_CELL
  rw [Int.shiftRight_eq_div_pow]
  norm_num

theorem extract_component_type_eq (id : Int) : EXTRACT_COMPONENT_TYPE id = id % 32 := by
  unfold EXTRACT_COMPONENT_TYPE
  have h := land_low_mask 5 id
  norm_num at h
  exact h

/-- The value of `COMPONENT_ID` whenever the type code fits the 5-bit field:
the wrapped shift plus the type code. -/
theorem component_id_eq (c t : Int) (h0 : 0 ≤ t) (h1 : t ≤ 31) :
    COMPONENT_ID c t = toInt32 (c * 32) + t := by
  unfold COMPONENT_ID
  have hs : c <<< (5 : Int) = c * 32 := by
    have h := Int.shiftLeft_eq_mul_pow c 5
    norm_num at h
    exact h
  rw [hs]
  have hdiv : toInt32 (c * 32) = (toInt32 (c * 32) / 32) * 2 ^ 5 := by
    unfold toInt32; norm_num; omega
  have h := lor_shifted 5 (toInt32 (c * 32) / 32) t h0 (by norm_num; omega)
  rw [← hdiv] at h
  exact h

theorem toInt32_of_isInt32 (x : Int) (h0 : -2147483648 ≤ x) (h1 : x < 2147483648) :
    toInt32 x = x := by
  unfold toInt32; omega

/-! ## Claims on component addressing -/

/-- C1 (as stated, refuted): the round trip does not hold for every `int`
cell index `>= 0`.  At `cell_index = 2^26` (a valid non-negative `int`) and
`type_code = 0` the shift leaves the 32-bit range and the decoded cell is
`-2^26`. -/
theorem component_id_round_trip_fails_at_2_pow_26 :
    isInt32 67108864 ∧ (0 : Int) ≤ 67108864 ∧
    EXTRACT_LOCAL_CELL (COMPONENT_ID 67108864 0) = -67108864 ∧
    EXTRACT_LOCAL_CELL (COMPONENT_ID 67108864 0) ≠ 67108864 := by
  have h : EXTRACT_LOCAL_CELL (COMPONENT_ID 67108864 0) = -67108864 := by
    rw [component_id_eq _ _ (by decide) (by decide), extract_local_cell_eq]
    unfold toInt32
    omega
  refine ⟨by decide, by decide, h, ?_⟩
  rw [h]
  decide

/-- C1 (amended): for every cell index in `[0, 2^26)` and every type code in
`[0,26]`, decoding `COMPONENT_ID(cell_index, type_code)` gives back the cell
index and the type code, so distinct (cell, type) pairs in that range get
distinct ids. -/
theorem component_id_round_trip (c t : Int)
    (hc0 : 0 ≤ c) (hc1 : c < 67108864) (ht0 : 0 ≤ t) (ht1 : t ≤ 26) :
    EXTRACT_LOCAL_CELL (COMPONENT_ID c t) = c ∧
    EXTRACT_COMPONENT_TYPE (COMPONENT_ID c t) = t ∧
    ∀ c2 t2 : Int, 0 ≤ c2 → c2 < 67108864 → 0 ≤ t2 → t2 ≤ 26 →
      COMPONENT_ID c t = COMPONENT_ID c2 t2 → c = c2 ∧ t = t2 := by
  have e1 : COMPONENT_ID c t = c * 32 + t := by
    rw [component_id_eq c t ht0 (by omega), toInt32_of_isInt32 _ (by omega) (by omega)]
  refine ⟨?_, ?_, ?_⟩
  · rw [e1, extract_local_cell_eq]; omega
  · rw [e1, extract_component_type_eq]; omega
  · intro c2 t2 hc20 hc21 ht20 ht21 h
    have e2 : COMPONENT_ID c2 t2 = c2 * 32 + t2 := by
      rw [component_id_eq c2 t2 ht20 (by omega), toInt32_of_isInt32 _ (by omega) (by omega)]
    rw [e1, e2] at h
    omega

/-- Witness of C1 (amended) at cell 5, type code 13. -/
theorem component_id_round_trip_witness :
    EXTRACT_LOCAL_CELL (COMPONENT_ID 5 13) = 5 ∧
    EXTRACT_COMPONENT_TYPE (COMPONENT_ID 5 13) = 13 ∧
    ∀ c2 t2 : Int, 0 ≤ c2 → c2 < 67108864 → 0 ≤ t2 → t2 ≤ 26 →
      COMPONENT_ID 5 13 = COMPONENT_ID c2 t2 → (5 : Int) = c2 ∧ (13 : Int) = t2 :=
  component_id_round_trip 5 13 (by decide) (by decide) (by decide) (by decide)

/-- C2: decoding is total on `int` ids and inverts encoding: for every 32-bit
id, `EXTRACT_LOCAL_CELL(id)` is `id >> 5` (the floor of `id / 32`, in the
27-bit signed range), `EXTRACT_COMPONENT_TYPE(id)` is `id & 31` (the remainder
modulo 32, in `[0,31]`), re-encoding the two gives `id` back, and the decoded
pair is the only pair with a 27-bit cell index and a type code in `[0,31]` that
encodes to `id`. -/
theorem decode_total_inverse (id : Int) (hlo : -2147483648 ≤ id) (hhi : id < 2147483648) :
    EXTRACT_LOCAL_CELL id = id / 32 ∧
    EXTRACT_COMPONENT_TYPE id = id % 32 ∧
    (-67108864 ≤ EXTRACT_LOCAL_CELL id ∧ EXTRACT_LOCAL_CELL id < 67108864) ∧
    (0 ≤ EXTRACT_COMPONENT_TYPE id ∧ EXTRACT_COMPONENT_TYPE id ≤ 31) ∧
    COMPONENT_ID (EXTRACT_LOCAL_CELL id) (EXTRACT_COMPONENT_TYPE id) = id ∧
    ∀ c t : Int, -67108864 ≤ c → c < 67108864 → 0 ≤ t → t ≤ 31 →
      (COMPONENT_ID c t = id ↔ c = EXTRACT_LOCAL_CELL id ∧ t = EXTRACT_COMPONENT_TYPE id) := by
  rw [extract_local_cell_eq, extract_component_type_eq]
  refine ⟨rfl, rfl, by omega, by omega, ?_, ?_⟩
  · rw [component_id_eq _ _ (by omega) (by omega),
      toInt32_of_isInt32 _ (by omega) (by omega)]
    omega
  · intro c t hc0 hc1 ht0 ht1
    rw [component_id_eq c t ht0 ht1, toInt32_of_isInt32 _ (by omega) (by omega)]
    omega

/-- Witness of C2 at the negative id `-1`. -/
theorem decode_total_inverse_witness :
    EXTRACT_LOCAL_CELL (-1) = (-1) / 32 ∧
    EXTRACT_COMPONENT_TYPE (-1) = (-1) % 32 ∧
    (-67108864 ≤ EXTRACT_LOCAL_CELL (-1) ∧ EXTRACT_LOCAL_CELL (-1) < 67108864) ∧
    (0 ≤ EXTRACT_COMPONENT_TYPE (-1) ∧ EXTRACT_COMPONENT_TYPE (-1) ≤ 31) ∧
    COMPONENT_ID (EXTRACT_LOCAL_CELL (-1)) (EXTRACT_COMPONENT_TYPE (-1)) = -1 ∧
    ∀ c t : Int, -67108864 ≤ c → c < 67108864 → 0 ≤ t → t ≤ 31 →
      (COMPONENT_ID c t = -1 ↔
        c = EXTRACT_LOCAL_CELL (-1) ∧ t = EXTRACT_COMPONENT_TYPE (-1)) :=
  decode_total_inverse (-1) (by decide) (by decide)

/-- C3: the shift-or encoding equals the documented arithmetic encoding: for
every cell index `>= 0` whose product with 32 fits an `int` and every type code
in `[0,31]`, `COMPONENT_ID(cell_index, type_code)` is
`cell_index * 32 + type_code`. -/
theorem component_id_eq_arith (c t : Int)
    (hc0 : 0 ≤ c) (hc1 : c * 32 < 2147483648) (ht0 : 0 ≤ t) (ht1 : t ≤ 31) :
    COMPONENT_ID c t = component_id_arith c t := by
  rw [component_id_eq c t ht0 ht1, toInt32_of_isInt32 _ (by omega) (by omega)]
  rfl

/-- Witness of C3 at the largest cell index that does not overflow, with the
largest type code. -/
theorem component_id_eq_arith_witness :
    COMPONENT_ID 67108863 31 = component_id_arith 67108863 31 :=
  component_id_eq_arith 67108863 31 (by decide) (by decide) (by decide) (by decide)

/-- C4 (as stated, refuted): `encode` does not reject a type code outside
`[0,31]`: `COMPONENT_ID(0, 32)` returns the id 32, which is also the id of
cell 1, type 0. -/
theorem encode_accepts_bad_type_code :
    badEncodeArgs 0 32 ∧ encode 0 32 = Except.ok 32 ∧
    encode 0 32 ≠ Except.error ErrorKind.InvalidArgument ∧ encode 0 32 = encode 1 0 := by
  refine ⟨by decide, rfl, ?_, rfl⟩
  intro h
  cases h

/-- C4 (amended): `COMPONENT_ID` tests nothing and never fails: for every pair
of arguments it returns an id, and when the type code is outside `[0,31]` or
the cell index is outside the 27-bit signed range the returned id does not
decode back to the arguments. -/
theorem encode_never_fails (c t : Int) :
    ∃ id : Int, encode c t = Except.ok id ∧
      (badEncodeArgs c t →
        ¬ (EXTRACT_LOCAL_CELL id = c ∧ EXTRACT_COMPONENT_TYPE id = t)) := by
  refine ⟨COMPONENT_ID c t, rfl, ?_⟩
  intro hbad hdec
  obtain ⟨hcell, htype⟩ := hdec
  rw [extract_component_type_eq] at htype
  have ht0 : 0 ≤ t := by omega
  have ht1 : t ≤ 31 := by omega
  rw [component_id_eq c t ht0 ht1, extract_local_cell_eq] at hcell
  unfold badEncodeArgs at hbad
  unfold toInt32 at hcell
  omega

/-- Witness of C4 (amended) at cell 0, type code 32. -/
theorem encode_never_fails_witness :
    ∃ id : Int, encode 0 32 = Except.ok id ∧
      ¬ (EXTRACT_LOCAL_CELL id = 0 ∧ EXTRACT_COMPONENT_TYPE id = 32) := by
  obtain ⟨id, h1, h2⟩ := encode_never_fails 0 32
  exact ⟨id, h1, h2 (by decide)⟩

/-- C5: the concrete example: `COMPONENT_ID(5, 13) == 173`,
`EXTRACT_LOCAL_CELL(173) == 5` and `EXTRACT_COMPONENT_TYPE(173) == 13`, and 13
is the type code of the body, offsets (0,0,0). -/
theorem component_id_example :
    COMPONENT_ID 5 13 = 173 ∧ EXTRACT_LOCAL_CELL 173 = 5 ∧
    EXTRACT_COMPONENT_TYPE 173 = 13 ∧ component_type 0 0 0 = 13 := by
  refine ⟨by decide, by decide, by decide, by decide⟩

/-! ## Lemmas on energy_p -/

section EnergyLemmas

variable {Particle Interp : Type}

/-- The outcome of a call that passes the three validation tests. -/
theorem energy_p_valid (env : Env Particle Interp) (p : List Particle) (n : Int)
    (q_m : Dbl) (fi : Interp) (gr : grid_t) (hn : 0 ≤ n) :
    energy_p env p n q_m (some fi) (some gr) =
      ⟨Except.ok (Dbl.div (Dbl.mul (Dbl.mul gr.cvac gr.cvac)
          (mp_allsum_d (local_sum env p n q_m fi gr) gr.mp)) q_m),
        [Event.dispatch_pipelines, Event.energy_p_pipeline env.n_pipeline env.n_pipeline,
          Event.wait_for_pipelines, Event.mp_allsum_d]⟩ := by
  have h : ¬ n < 0 := by omega
  simp [energy_p, h, local_sum, en_after]

/-- The summation loop is a left fold over the slots `rank, rank+1, ..`. -/
theorem sum_en_eq_foldl (en : Nat → Dbl) (todo : Nat) : ∀ (rank : Nat) (loc : Dbl),
    sum_en en todo rank loc =
      ((List.range todo).map (fun i => en (rank + i))).foldl Dbl.add loc := by
  induction todo with
  | zero => intro rank loc; rfl
  | succ k ih =>
    intro rank loc
    have hfun : (fun i => en (rank + 1 + i)) = (fun i => en (rank + (i + 1))) := by
      funext i
      congr 1
      omega
    rw [sum_en, ih, List.range_succ_eq_map, hfun]
    simp [List.map_map, Function.comp_def]

theorem store_en_en (args : energy_p_pipeline_args_t Particle Interp) (rank : Nat) (v : Dbl)
    (i : Nat) : (store_en args rank v).en i = if i = rank then v else args.en i := rfl

/-- The first `k` workers of a dispatch leave the slots of rank `k` and above
as they were. -/
theorem dispatch_pipelines_en_ge
    (pipeline : energy_p_pipeline_args_t Particle Interp → Nat → Nat → Dbl) (P : Nat)
    (k : Nat) : ∀ (args : energy_p_pipeline_args_t Particle Interp) (i : Nat), k ≤ i →
    ((List.range k).foldl (fun a rank => store_en a rank (pipeline a rank P)) args).en i
      = args.en i := by
  induction k with
  | zero => intro args i _; rfl
  | succ k ih =>
    intro args i hi
    rw [List.range_succ, List.foldl_append]
    simp only [List.foldl_cons, List.foldl_nil, store_en_en]
    have : i ≠ k := by omega
    rw [if_neg this]
    exact ih args i (by omega)

/-- The workers of a dispatch do not change the five inputs held in `args`. -/
theorem dispatch_pipelines_inputs
    (pipeline : energy_p_pipeline_args_t Particle Interp → Nat → Nat → Dbl) (P : Nat)
    (k : Nat) (args : energy_p_pipeline_args_t Particle Interp) :
    same_inputs ((List.range k).foldl (fun a rank => store_en a rank (pipeline a rank P)) args)
      args := by
  induction k with
  | zero => exact ⟨rfl, rfl, rfl, rfl, rfl⟩
  | succ k ih =>
    rw [List.range_succ, List.foldl_append]
    exact ih

/-- After the first `k` workers of a dispatch every slot below `k` holds what
the pipeline of that rank computed from the inputs of the call. -/
theorem dispatch_pipelines_en_lt
    (pipeline : energy_p_pipeline_args_t Particle Interp → Nat → Nat → Dbl) (P : Nat)
    (k : Nat) : ∀ (args : energy_p_pipeline_args_t Particle Interp) (i : Nat), i < k →
    ∃ a : energy_p_pipeline_args_t Particle Interp, same_inputs a args ∧
      ((List.range k).foldl (fun a rank => store_en a rank (pipeline a rank P)) args).en i
        = pipeline a i P := by
  induction k with
  | zero => intro args i hi; omega
  | succ k ih =>
    intro args i hi
    rw [List.range_succ, List.foldl_append]
    simp only [List.foldl_cons, List.foldl_nil, store_en_en]
    by_cases hik : i = k
    · subst hik
      exact ⟨_, dispatch_pipelines_inputs pipeline P i args, by rw [if_pos rfl]⟩
    · obtain ⟨a, ha, h⟩ := ih args i (by omega)
      exact ⟨a, ha, by rw [if_neg hik]; exact h⟩

/-- The slot of rank `n_pipeline` holds what the host pipeline computed. -/
theorem en_after_host (env : Env Particle Interp) (p : List Particle) (n : Int)
    (q_m : Dbl) (fi : Interp) (gr : grid_t) :
    ∃ a : energy_p_pipeline_args_t Particle Interp,
      same_inputs a ⟨p, n, q_m, fi, gr, env.en0⟩ ∧
      en_after env p n q_m fi gr env.n_pipeline =
        env.energy_p_pipeline a env.n_pipeline env.n_pipeline := by
  refine ⟨_, dispatch_pipelines_inputs env.energy_p_pipeline_v4 env.n_pipeline
    env.n_pipeline ⟨p, n, q_m, fi, gr, env.en0⟩, ?_⟩
  simp [en_after, dispatch_pipelines, store_en_en]

/-- The slot of a rank below `n_pipeline` holds what the worker pipeline of
that rank computed. -/
theorem en_after_worker (env : Env Particle Interp) (p : List Particle) (n : Int)
    (q_m : Dbl) (fi : Interp) (gr : grid_t) (rank : Nat) (h : rank < env.n_pipeline) :
    ∃ a : energy_p_pipeline_args_t Particle Interp,
      same_inputs a ⟨p, n, q_m, fi, gr, env.en0⟩ ∧
      en_after env p n q_m fi gr rank = env.energy_p_pipeline_v4 a rank env.n_pipeline := by
  obtain ⟨a, ha, h1⟩ := dispatch_pipelines_en_lt env.energy_p_pipeline_v4 env.n_pipeline
    env.n_pipeline ⟨p, n, q_m, fi, gr, env.en0⟩ rank h
  refine ⟨a, ha, ?_⟩
  have hne : rank ≠ env.n_pipeline := by omega
  simp only [en_after, dispatch_pipelines, store_en_en, if_neg hne]
  exact h1

/-- The local sum is the left fold over the slots `en[0..n_pipeline]`. -/
theorem local_sum_eq_fold (env : Env Particle Interp) (p : List Particle) (n : Int)
    (q_m : Dbl) (fi : Interp) (gr : grid_t) :
    local_sum env p n q_m fi gr =
      fold_sum ((List.range (env.n_pipeline + 1)).map (en_after env p n q_m fi gr)) := by
  simp [local_sum, fold_sum, sum_en_eq_foldl]

end EnergyLemmas

/-! ## Lemmas on `double` zeros -/

namespace Dbl

theorem isZero_iff (x : Dbl) : x.isZero = true ↔ ∃ s e, x = fin s 0 e := by
  cases x with
  | nan => simp [isZero]
  | inf s => simp [isZero]
  | fin s m e =>
    cases m with
    | zero => simp [isZero]
    | succ k => simp [isZero]

theorem add_zero_zero : add (zero false) (zero false) = zero false := by
  simp [add, zero]

theorem isZero_add (x y : Dbl) (hx : x.isZero = true) (hy : y.isZero = true) :
    (add x y).isZero = true := by
  obtain ⟨s, e, rfl⟩ := (isZero_iff x).1 hx
  obtain ⟨t, f, rfl⟩ := (isZero_iff y).1 hy
  simp [add, zero, isZero]

theorem isZero_foldl_add (xs : List Dbl) : ∀ x : Dbl, x.isZero = true →
    (∀ y ∈ xs, y.isZero = true) → (xs.foldl add x).isZero = true := by
  induction xs with
  | nil => intro x hx _; exact hx
  | cons y ys ih =>
    intro x hx h
    simp only [List.foldl_cons]
    exact ih _ (isZero_add x y hx (h y (by simp))) (fun z hz => h z (by simp [hz]))

/-- A finite value times a zero is a zero. -/
theorem isZero_mul_zero (x y : Dbl) (hx : x.isFinite = true) (hy : y.isZero = true) :
    (mul x y).isZero = true := by
  obtain ⟨t, f, rfl⟩ := (isZero_iff y).1 hy
  cases x with
  | nan => simp [isFinite] at hx
  | inf s => simp [isFinite] at hx
  | fin s m e => simp [mul, roundNearestEven, zero, isZero]

/-- A zero divided by anything but a zero or NaN is a zero. -/
theorem isZero_zero_div (x y : Dbl) (hx : x.isZero = true) (hy : y.isNaN = false)
    (hy0 : y.isZero = false) : (div x y).isZero = true := by
  obtain ⟨s, e, rfl⟩ := (isZero_iff x).1 hx
  cases y with
  | nan => simp [isNaN] at hy
  | inf t => simp [div, zero, isZero]
  | fin t k f =>
    have hk : k ≠ 0 := by
      intro h; subst h; simp [isZero] at hy0
    simp [div, hk, roundNearestEven, zero, isZero]

/-- Dividing by a zero never traps: the quotient is NaN or an infinity. -/
theorem div_by_zero (x y : Dbl) (hy : y.isZero = true) :
    (div x y).isNaN = true ∨ (div x y).isInf = true := by
  obtain ⟨t, f, rfl⟩ := (isZero_iff y).1 hy
  cases x with
  | nan => simp [div, isNaN]
  | inf s => simp [div, isInf]
  | fin s m e =>
    by_cases hm : m = 0
    · simp [div, hm, isNaN]
    · simp [div, hm, isInf]

theorem isZero_not_isNaN (x : Dbl) (h : x.isZero = true) : x.isNaN = false := by
  obtain ⟨s, e, rfl⟩ := (isZero_iff x).1 h
  rfl

/-- The operations reproduce known IEEE-754 binary64 results: the nearest
`double` to `0.1`, `0.1 + 0.2`, `1.0 / 3.0`, `0.1 * 0.1`, `-7.0 / 5.0`, and two
ties that go to the even significand (`10^16 + 1` and `2^53 + 1`). -/
theorem known_values :
    lit false 1 10 = fin false 7205759403792794 (-56) ∧
    add (lit false 1 10) (lit false 2 10) = fin false 5404319552844596 (-54) ∧
    div (lit false 1 1) (lit false 3 1) = fin false 6004799503160661 (-54) ∧
    mul (lit false 1 10) (lit false 1 10) = fin false 5764607523034236 (-59) ∧
    div (lit true 7 1) (lit false 5 1) = fin true 6305039478318694 (-52) ∧
    add (lit false 10000000000000000 1) (lit false 1 1) = fin false 5000000000000000 1 ∧
    lit false 9007199254740993 1 = fin false 4503599627370496 1 := by
  refine ⟨by decide, by decide, by decide, by decide, by decide, by decide, by decide⟩

/-! ### Rounding does not overflow in `float` range -/

theorem log2Search_le (n : Nat) (k : Nat) : ∀ lo : Nat, 2 ^ lo ≤ n →
    2 ^ log2Search n k lo ≤ n := by
  induction k with
  | zero => intro lo h; exact h
  | succ k ih =>
    intro lo h
    unfold log2Search
    split
    · exact ih _ (by assumption)
    · exact ih _ h

theorem two_pow_bitLength_le (n : Nat) (hn : n ≠ 0) : 2 ^ (bitLength n - 1) ≤ n := by
  unfold bitLength
  rw [if_neg hn]
  simp only [Nat.add_sub_cancel]
  exact log2Search_le n _ 0 (by simp; omega)

theorem bitLength_le (n b : Nat) (h : n < 2 ^ b) : bitLength n ≤ b := by
  by_cases hn : n = 0
  · simp [bitLength, hn]
  · have h1 := two_pow_bitLength_le n hn
    have h2 : 2 ^ (bitLength n - 1) < 2 ^ b := lt_of_le_of_lt h1 h
    have h3 := (Nat.pow_lt_pow_iff_right (a := 2) (by norm_num)).1 h2
    omega

theorem bitLength_pos (n : Nat) (hn : n ≠ 0) : 1 ≤ bitLength n := by
  unfold bitLength
  rw [if_neg hn]
  omega

theorem roundExponent_le (num den b : Nat) (hden : den ≠ 0) (h : num < 2 ^ b) :
    roundExponent num den ≤ max ((b : Int) - 53) (-1074) := by
  have hb1 := bitLength_le num b h
  have hb2 := bitLength_pos den hden
  unfold roundExponent
  simp only []
  split <;> omega

theorem isFinite_finish (neg : Bool) (m : Nat) (e : Int) (h : e < 971) :
    (finish neg m e).isFinite = true := by
  unfold finish
  split
  · rw [if_neg (by omega)]; rfl
  · rw [if_neg (by omega)]; rfl

/-- Rounding a value whose numerator is below `2^1000` does not overflow. -/
theorem isFinite_roundNearestEven (neg : Bool) (num den : Nat) (h : num < 2 ^ 1000) :
    (roundNearestEven neg num den).isFinite = true := by
  unfold roundNearestEven
  split
  · rfl
  · rename_i h0
    push_neg at h0
    have he := roundExponent_le num den 1000 h0.2 h
    exact isFinite_finish _ _ _ (by omega)

/-- The product of two values of `float` range is finite: a `float` squared
does not overflow a `double`. -/
theorem isFinite_mul_inFloatRange (x y : Dbl) (hx : x.inFloatRange = true)
    (hy : y.inFloatRange = true) : (mul x y).isFinite = true := by
  cases x with
  | nan => simp [inFloatRange] at hx
  | inf s => simp [inFloatRange] at hx
  | fin s m e =>
    cases y with
    | nan => simp [inFloatRange] at hy
    | inf t => simp [inFloatRange] at hy
    | fin t k f =>
      simp only [inFloatRange, Bool.and_eq_true, decide_eq_true_eq] at hx hy
      unfold mul
      apply isFinite_roundNearestEven
      have h1 : m * k < 2 ^ 53 * 2 ^ 53 := Nat.mul_lt_mul'' hx.1 hy.1
      have h2 : pow2 (e + f) ≤ 2 ^ 150 := by
        unfold pow2
        exact Nat.pow_le_pow_right (by norm_num) (by omega)
      calc m * k * pow2 (e + f) ≤ m * k * 2 ^ 150 := Nat.mul_le_mul_left _ h2
        _ < 2 ^ 53 * 2 ^ 53 * 2 ^ 150 := Nat.mul_lt_mul_of_pos_right h1 (by positivity)
        _ ≤ 2 ^ 1000 := by norm_num

end Dbl

section EnergyClaims

variable {Particle Interp : Type}

/-- With no particle (`n = 0`) every slice of the partition is empty and the
pipeline of the specification reports `+0.0`. -/
theorem slice_energy_zero (ke : Interp → Dbl → Particle → Dbl) (part : Partition)
    (a : energy_p_pipeline_args_t Particle Interp) (rank P : Nat) (hn : a.n = 0) :
    slice_energy ke part a rank P = Dbl.zero false := by
  have h := part.within a.n P rank
  rw [hn] at h
  have hc : part.count 0 P rank = 0 := by
    have : ((part.first 0 P rank + part.count 0 P rank : Nat) : Int) ≤ 0 := by simpa using h
    omega
  simp [slice_energy, hn, hc]

/-- With no particle the local sum of the pipelines of the specification is `+0.0`. -/
theorem local_sum_zero (P : Nat) (ke : Interp → Dbl → Particle → Dbl) (part : Partition)
    (en0 : Nat → Dbl) (p : List Particle) (q_m : Dbl) (fi : Interp) (gr : grid_t) :
    local_sum (sliceEnv P ke part en0) p 0 q_m fi gr = Dbl.zero false := by
  have hen : ∀ r, r ≤ P → en_after (sliceEnv P ke part en0) p 0 q_m fi gr r = Dbl.zero false := by
    intro r hr
    by_cases hrP : r = P
    · subst hrP
      obtain ⟨a, ha, h⟩ := en_after_host (sliceEnv r ke part en0) p 0 q_m fi gr
      rw [show (sliceEnv r ke part en0).n_pipeline = r from rfl] at h
      rw [h]
      exact slice_energy_zero ke part a r r ha.2.1
    · obtain ⟨a, ha, h⟩ := en_after_worker (sliceEnv P ke part en0) p 0 q_m fi gr r
        (by show r < P; omega)
      rw [h]
      exact slice_energy_zero ke part a r P ha.2.1
  rw [local_sum_eq_fold]
  show fold_sum ((List.range (P + 1)).map _) = _
  have hmap : (List.range (P + 1)).map (en_after (sliceEnv P ke part en0) p 0 q_m fi gr)
      = List.replicate (P + 1) (Dbl.zero false) := by
    apply List.ext_getElem
    · simp
    · intro i h1 h2
      simp at h1
      simp [hen i (by omega)]
  rw [hmap]
  generalize P + 1 = k
  induction k with
  | zero => rfl
  | succ k ih =>
    rw [List.replicate_succ]
    unfold fold_sum at ih ⊢
    rw [List.foldl_cons, Dbl.add_zero_zero]
    exact ih

end EnergyClaims

/-! ## Claims on energy_p -/

section EnergyClaimTheorems

variable {Particle Interp : Type}

/-- C6: `energy_p` validates before dispatching: a call fails (it ends in the
`ERROR` report, with no energy value) if and only if `n < 0` or the
interpolator is null or the grid is null; a failing call makes no call at all
(no dispatch, no host pipeline, no wait, no collective), and every other call
makes exactly the four calls, in the order of the source. -/
theorem energy_p_validates_before_dispatch (env : Env Particle Interp) (p : List Particle)
    (n : Int) (q_m : Dbl) (f : Option Interp) (g : Option grid_t) :
    ((∃ msg, (energy_p env p n q_m f g).result = Except.error msg) ↔
      (n < 0 ∨ f = none ∨ g = none)) ∧
    ((n < 0 ∨ f = none ∨ g = none) → (energy_p env p n q_m f g).trace = []) ∧
    (¬ (n < 0 ∨ f = none ∨ g = none) →
      (energy_p env p n q_m f g).trace =
        [Event.dispatch_pipelines, Event.energy_p_pipeline env.n_pipeline env.n_pipeline,
          Event.wait_for_pipelines, Event.mp_allsum_d]) := by
  by_cases hn : n < 0
  · simp [energy_p, hn]
  · cases f with
    | none => simp [energy_p, hn]
    | some fi =>
      cases g with
      | none => simp [energy_p, hn]
      | some gr =>
        rw [energy_p_valid env p n q_m fi gr (by omega)]
        simp [hn]

/-- Witness of C6: a call with `n = -1` ends in the first `ERROR` and makes no
call. -/
theorem energy_p_validates_before_dispatch_witness :
    (∃ msg, (energy_p (mockEnv (Dbl.lit false 2 1) (Dbl.zero false)) [] (-1)
      (Dbl.lit false 1 2) (some ()) none).result = Except.error msg) ∧
    (energy_p (mockEnv (Dbl.lit false 2 1) (Dbl.zero false)) [] (-1)
      (Dbl.lit false 1 2) (some ()) none).trace = [] :=
  ⟨(energy_p_validates_before_dispatch (mockEnv (Dbl.lit false 2 1) (Dbl.zero false)) [] (-1)
      (Dbl.lit false 1 2) (some ()) none).1.2 (Or.inl (by decide)),
   (energy_p_validates_before_dispatch (mockEnv (Dbl.lit false 2 1) (Dbl.zero false)) [] (-1)
      (Dbl.lit false 1 2) (some ()) none).2.1 (Or.inl (by decide))⟩

/-- C7: the final conversion: a valid call returns
`cvac * cvac * global / q_m` (evaluated left to right in `double`), `global`
being the collective sum of the local sums; with `cvac = 1.0`, `q_m = 0.5` and
two ranks whose local sums are `2.0` and `3.0`, the call returns `10.0` on the
rank holding `2.0` and on the rank holding `3.0`. -/
theorem energy_p_final_conversion (env : Env Particle Interp) (p : List Particle)
    (n : Int) (q_m : Dbl) (fi : Interp) (gr : grid_t) (hn : 0 ≤ n) :
    (energy_p env p n q_m (some fi) (some gr)).result =
      Except.ok (Dbl.div (Dbl.mul (Dbl.mul gr.cvac gr.cvac)
        (mp_allsum_d (local_sum env p n q_m fi gr) gr.mp)) q_m) ∧
    (gr.cvac = Dbl.lit false 1 1 → q_m = Dbl.lit false 1 2 →
      gr.mp = ⟨[], [Dbl.lit false 3 1]⟩ →
      local_sum env p n q_m fi gr = Dbl.lit false 2 1 →
      (energy_p env p n q_m (some fi) (some gr)).result = Except.ok (Dbl.lit false 10 1)) ∧
    (gr.cvac = Dbl.lit false 1 1 → q_m = Dbl.lit false 1 2 →
      gr.mp = ⟨[Dbl.lit false 2 1], []⟩ →
      local_sum env p n q_m fi gr = Dbl.lit false 3 1 →
      (energy_p env p n q_m (some fi) (some gr)).result = Except.ok (Dbl.lit false 10 1)) := by
  rw [energy_p_valid env p n q_m fi gr hn]
  refine ⟨rfl, ?_, ?_⟩
  · intro hc hq hmp hl
    rw [hl, hc, hq, hmp]
    exact congrArg Except.ok (by decide)
  · intro hc hq hmp hl
    rw [hl, hc, hq, hmp]
    exact congrArg Except.ok (by decide)

/-- Witness of C7: the mock rank reporting `2.0`, next to a rank reporting
`3.0`, returns `10.0`. -/
theorem energy_p_final_conversion_witness :
    (energy_p (mockEnv (Dbl.lit false 2 1) (Dbl.zero false)) [] 0 (Dbl.lit false 1 2)
      (some ()) (some ⟨Dbl.lit false 1 1, ⟨[], [Dbl.lit false 3 1]⟩⟩)).result =
      Except.ok (Dbl.lit false 10 1) :=
  (energy_p_final_conversion (mockEnv (Dbl.lit false 2 1) (Dbl.zero false)) [] 0
    (Dbl.lit false 1 2) () ⟨Dbl.lit false 1 1, ⟨[], [Dbl.lit false 3 1]⟩⟩
    (by decide)).2.1 rfl rfl rfl (by decide)

/-- C8: the aggregation of a valid call: the local sum handed to the collective
is the left fold `((0 + en[0]) + en[1]) + .. + en[P]` over exactly the slots
`0..P` in increasing rank order (`P = _n_pipeline`); slot `P`, added last, is
the one the host call `energy_p_pipeline(args, P, P)` wrote, and each slot
`rank < P` is the one the worker of that rank wrote. -/
theorem energy_p_aggregation_order (env : Env Particle Interp) (p : List Particle)
    (n : Int) (q_m : Dbl) (fi : Interp) (gr : grid_t) (hn : 0 ≤ n) :
    (energy_p env p n q_m (some fi) (some gr)).result =
      Except.ok (Dbl.div (Dbl.mul (Dbl.mul gr.cvac gr.cvac)
        (mp_allsum_d
          (fold_sum ((List.range (env.n_pipeline + 1)).map (en_after env p n q_m fi gr)))
          gr.mp)) q_m) ∧
    fold_sum ((List.range (env.n_pipeline + 1)).map (en_after env p n q_m fi gr)) =
      Dbl.add (fold_sum ((List.range env.n_pipeline).map (en_after env p n q_m fi gr)))
        (en_after env p n q_m fi gr env.n_pipeline) ∧
    (∃ a : energy_p_pipeline_args_t Particle Interp,
      same_inputs a ⟨p, n, q_m, fi, gr, env.en0⟩ ∧
      en_after env p n q_m fi gr env.n_pipeline =
        env.energy_p_pipeline a env.n_pipeline env.n_pipeline) ∧
    (∀ rank, rank < env.n_pipeline →
      ∃ a : energy_p_pipeline_args_t Particle Interp,
        same_inputs a ⟨p, n, q_m, fi, gr, env.en0⟩ ∧
        en_after env p n q_m fi gr rank =
          env.energy_p_pipeline_v4 a rank env.n_pipeline) := by
  refine ⟨?_, ?_, en_after_host env p n q_m fi gr,
    fun rank h => en_after_worker env p n q_m fi gr rank h⟩
  · rw [energy_p_valid env p n q_m fi gr hn, local_sum_eq_fold]
  · simp [fold_sum, List.range_succ]

/-- Witness of C8: on the mock rank with one worker reporting `2.0` and the host
reporting `3.0` the aggregated local sum is `(0 + 2.0) + 3.0 = 5.0`. -/
theorem energy_p_aggregation_order_witness :
    fold_sum ((List.range (1 + 1)).map
      (en_after (mockEnv (Dbl.lit false 2 1) (Dbl.lit false 3 1)) [] 0 (Dbl.lit false 1 2) ()
        ⟨Dbl.lit false 1 1, ⟨[], []⟩⟩)) =
    Dbl.add (fold_sum ((List.range 1).map
      (en_after (mockEnv (Dbl.lit false 2 1) (Dbl.lit false 3 1)) [] 0 (Dbl.lit false 1 2) ()
        ⟨Dbl.lit false 1 1, ⟨[], []⟩⟩)))
      (en_after (mockEnv (Dbl.lit false 2 1) (Dbl.lit false 3 1)) [] 0 (Dbl.lit false 1 2) ()
        ⟨Dbl.lit false 1 1, ⟨[], []⟩⟩ 1) :=
  (energy_p_aggregation_order (mockEnv (Dbl.lit false 2 1) (Dbl.lit false 3 1)) [] 0
    (Dbl.lit false 1 2) () ⟨Dbl.lit false 1 1, ⟨[], []⟩⟩ (by decide)).2.1

/-- C9 (as stated, refuted): with `n = 0`, non-null interpolator and grid and
the other rank contributing `0.0`, the total is NaN when `q_m = 0.0` (the
return expression divides `1.0 * 1.0 * 0.0` by `0.0`), and also when `q_m` is
NaN, when `cvac` is infinite (infinity times `0.0`) and when `cvac` is NaN. -/
theorem energy_p_no_particles_zero_q_m_is_nan :
    (energy_p (sliceEnv 1 (fun _ _ _ => Dbl.lit false 1 1) hostOnlyPartition
        (fun _ => Dbl.nan)) ([] : List Unit) 0 (Dbl.zero false) (some ())
      (some ⟨Dbl.lit false 1 1, ⟨[], [Dbl.zero false]⟩⟩)).result = Except.ok Dbl.nan ∧
    (energy_p (sliceEnv 1 (fun _ _ _ => Dbl.lit false 1 1) hostOnlyPartition
        (fun _ => Dbl.nan)) ([] : List Unit) 0 Dbl.nan (some ())
      (some ⟨Dbl.lit false 1 1, ⟨[], [Dbl.zero false]⟩⟩)).result = Except.ok Dbl.nan ∧
    (energy_p (sliceEnv 1 (fun _ _ _ => Dbl.lit false 1 1) hostOnlyPartition
        (fun _ => Dbl.nan)) ([] : List Unit) 0 (Dbl.lit false 1 2) (some ())
      (some ⟨Dbl.inf false, ⟨[], [Dbl.zero false]⟩⟩)).result = Except.ok Dbl.nan ∧
    (energy_p (sliceEnv 1 (fun _ _ _ => Dbl.lit false 1 1) hostOnlyPartition
        (fun _ => Dbl.nan)) ([] : List Unit) 0 (Dbl.lit false 1 2) (some ())
      (some ⟨Dbl.nan, ⟨[], [Dbl.zero false]⟩⟩)).result = Except.ok Dbl.nan ∧
    Dbl.isNaN Dbl.nan = true ∧ Dbl.isZero Dbl.nan = false := by
  refine ⟨rfl, rfl, rfl, rfl, rfl, rfl⟩

/-- C9 (amended): for every call with `n = 0`, non-null interpolator and grid,
every other rank contributing a zero, a `q_m` that is neither zero nor NaN and
a finite `cvac`, the returned total is a zero (`0.0`, or `-0.0` which C
compares equal to it) and is not NaN. -/
theorem energy_p_no_particles (P : Nat) (ke : Interp → Dbl → Particle → Dbl)
    (part : Partition) (en0 : Nat → Dbl) (p : List Particle) (q_m : Dbl) (fi : Interp)
    (gr : grid_t)
    (hothers : ∀ x ∈ gr.mp.lower ++ gr.mp.upper, Dbl.isZero x = true)
    (hc : Dbl.inFloatRange gr.cvac = true)
    (hq : Dbl.isNaN q_m = false) (hq0 : Dbl.isZero q_m = false) :
    ∃ total : Dbl,
      (energy_p (sliceEnv P ke part en0) p 0 q_m (some fi) (some gr)).result =
        Except.ok total ∧
      Dbl.isZero total = true ∧ Dbl.isNaN total = false := by
  rw [energy_p_valid _ p 0 q_m fi gr (le_refl 0), local_sum_zero]
  refine ⟨_, rfl, ?_⟩
  have hglob : Dbl.isZero (mp_allsum_d (Dbl.zero false) gr.mp) = true := by
    unfold mp_allsum_d
    have hall : ∀ x ∈ gr.mp.lower ++ Dbl.zero false :: gr.mp.upper, Dbl.isZero x = true := by
      intro x hx
      simp only [List.mem_append, List.mem_cons] at hx
      rcases hx with h | h | h
      · exact hothers x (by simp [h])
      · rw [h]; rfl
      · exact hothers x (by simp [h])
    generalize gr.mp.lower ++ Dbl.zero false :: gr.mp.upper = xs at hall
    cases xs with
    | nil => rfl
    | cons y ys =>
      exact Dbl.isZero_foldl_add ys y (hall y (by simp)) (fun z hz => hall z (by simp [hz]))
  have hfin := Dbl.isFinite_mul_inFloatRange gr.cvac gr.cvac hc hc
  have hz := Dbl.isZero_zero_div _ q_m (Dbl.isZero_mul_zero _ _ hfin hglob) hq hq0
  exact ⟨hz, Dbl.isZero_not_isNaN _ hz⟩

/-- Witness of C9 (amended): no particle, `q_m = -1.0` and `cvac = 1.0`, next to
a rank contributing `0.0`. -/
theorem energy_p_no_particles_witness :
    ∃ total : Dbl,
      (energy_p (sliceEnv 1 (fun _ _ _ => Dbl.lit false 1 1) hostOnlyPartition
          (fun _ => Dbl.nan)) ([] : List Unit) 0 (Dbl.lit true 1 1) (some ())
        (some ⟨Dbl.lit false 1 1, ⟨[], [Dbl.zero false]⟩⟩)).result = Except.ok total ∧
      Dbl.isZero total = true ∧ Dbl.isNaN total = false :=
  energy_p_no_particles 1 (fun _ _ _ => Dbl.lit false 1 1) hostOnlyPartition
    (fun _ => Dbl.nan) [] (Dbl.lit true 1 1) () ⟨Dbl.lit false 1 1, ⟨[], [Dbl.zero false]⟩⟩
    (by decide) (by decide) (by decide) (by decide)

/-- C10 (as stated, refuted): a call with `q_m = 0.0` and valid arguments does
not fail: on the mock rank with local sum `2.0`, next to a rank reporting
`3.0`, with `cvac = 1.0`, it makes all four calls and returns `+infinity`, the
quotient `5.0 / 0.0`. -/
theorem energy_p_zero_q_m_returns_infinity :
    (energy_p (mockEnv (Dbl.lit false 2 1) (Dbl.zero false)) [] 0 (Dbl.zero false)
      (some ()) (some ⟨Dbl.lit false 1 1, ⟨[], [Dbl.lit false 3 1]⟩⟩)).result =
      Except.ok (Dbl.inf false) ∧
    (energy_p (mockEnv (Dbl.lit false 2 1) (Dbl.zero false)) [] 0 (Dbl.zero false)
      (some ()) (some ⟨Dbl.lit false 1 1, ⟨[], [Dbl.lit false 3 1]⟩⟩)).trace =
      [Event.dispatch_pipelines, Event.energy_p_pipeline 1 1, Event.wait_for_pipelines,
        Event.mp_allsum_d] := by
  refine ⟨rfl, rfl⟩

/-- C10 (amended): a zero `q_m` is not tested: every call with `q_m = 0`
(`+0.0` or `-0.0`), `n >= 0` and non-null interpolator and grid makes the four
calls and returns the `double` quotient `cvac * cvac * global / q_m`, which is
NaN or an infinity; it does not fail. -/
theorem energy_p_zero_q_m_not_rejected (env : Env Particle Interp) (p : List Particle)
    (n : Int) (q_m : Dbl) (fi : Interp) (gr : grid_t) (hn : 0 ≤ n)
    (hq : Dbl.isZero q_m = true) :
    ∃ v : Dbl,
      (energy_p env p n q_m (some fi) (some gr)).result = Except.ok v ∧
      v = Dbl.div (Dbl.mul (Dbl.mul gr.cvac gr.cvac)
        (mp_allsum_d (local_sum env p n q_m fi gr) gr.mp)) q_m ∧
      (Dbl.isNaN v = true ∨ Dbl.isInf v = true) ∧
      (energy_p env p n q_m (some fi) (some gr)).trace =
        [Event.dispatch_pipelines, Event.energy_p_pipeline env.n_pipeline env.n_pipeline,
          Event.wait_for_pipelines, Event.mp_allsum_d] := by
  rw [energy_p_valid env p n q_m fi gr hn]
  exact ⟨_, rfl, rfl, Dbl.div_by_zero _ q_m hq, rfl⟩

/-- Witness of C10 (amended): the mock rank with `q_m = -0.0`. -/
theorem energy_p_zero_q_m_not_rejected_witness :
    ∃ v : Dbl,
      (energy_p (mockEnv (Dbl.lit false 2 1) (Dbl.zero false)) [] 0 (Dbl.zero true)
        (some ()) (some ⟨Dbl.lit false 1 1, ⟨[], [Dbl.lit false 3 1]⟩⟩)).result =
        Except.ok v ∧
      v = Dbl.div (Dbl.mul (Dbl.mul (Dbl.lit false 1 1) (Dbl.lit false 1 1))
        (mp_allsum_d (local_sum (mockEnv (Dbl.lit false 2 1) (Dbl.zero false)) [] 0
          (Dbl.zero true) () ⟨Dbl.lit false 1 1, ⟨[], [Dbl.lit false 3 1]⟩⟩)
          ⟨[], [Dbl.lit false 3 1]⟩)) (Dbl.zero true) ∧
      (Dbl.isNaN v = true ∨ Dbl.isInf v = true) ∧
      (energy_p (mockEnv (Dbl.lit false 2 1) (Dbl.zero false)) [] 0 (Dbl.zero true)
        (some ()) (some ⟨Dbl.lit false 1 1, ⟨[], [Dbl.lit false 3 1]⟩⟩)).trace =
        [Event.dispatch_pipelines, Event.energy_p_pipeline 1 1, Event.wait_for_pipelines,
          Event.mp_allsum_d] :=
  energy_p_zero_q_m_not_rejected (mockEnv (Dbl.lit false 2 1) (Dbl.zero false)) [] 0
    (Dbl.zero true) () ⟨Dbl.lit false 1 1, ⟨[], [Dbl.lit false 3 1]⟩⟩ (by decide) rfl

end EnergyClaimTheorems

/-! ## Claims on component classes, the registry and the parameter block -/

/-- C13: the classification partition: on offsets in `{-1,0,1}^3` the map
`(dx,dy,dz) -> (dx+1) + 3*(dy+1) + 9*(dz+1)` takes its values in `[0,26]` and
`component_offsets` inverts it, every code in `[0,26]` is the code of its
offsets (so the map is a bijection onto `[0,26]` and no code in `27..31` is
produced), and classifying the 27 codes by their number of nonzero offsets
gives the body (code 13 alone), 6 faces, 12 edges and 8 corners. -/
theorem classification_partition :
    (∀ dx dy dz : Int, -1 ≤ dx → dx ≤ 1 → -1 ≤ dy → dy ≤ 1 → -1 ≤ dz → dz ≤ 1 →
      0 ≤ component_type dx dy dz ∧ component_type dx dy dz ≤ 26 ∧
      component_offsets (component_type dx dy dz) = (dx, dy, dz)) ∧
    (∀ code : Int, 0 ≤ code → code ≤ 26 →
      (-1 ≤ (component_offsets code).1 ∧ (component_offsets code).1 ≤ 1) ∧
      (-1 ≤ (component_offsets code).2.1 ∧ (component_offsets code).2.1 ≤ 1) ∧
      (-1 ≤ (component_offsets code).2.2 ∧ (component_offsets code).2.2 ≤ 1) ∧
      component_type (component_offsets code).1 (component_offsets code).2.1
        (component_offsets code).2.2 = code) ∧
    valid_type_codes.length = 27 ∧
    valid_type_codes.filter (fun c => decide (classify c = ComponentClass.Body)) = [13] ∧
    (valid_type_codes.filter (fun c => decide (classify c = ComponentClass.Face))).length = 6 ∧
    (valid_type_codes.filter (fun c => decide (classify c = ComponentClass.Edge))).length = 12 ∧
    (valid_type_codes.filter (fun c => decide (classify c = ComponentClass.Corner))).length = 8 ∧
    classify (component_type 0 0 0) = ComponentClass.Body := by
  refine ⟨?_, ?_, by decide, by decide, by decide, by decide, by decide, by decide⟩
  · intro dx dy dz h1 h2 h3 h4 h5 h6
    unfold component_type component_offsets
    refine ⟨by omega, by omega, ?_⟩
    simp only [Prod.mk.injEq]
    omega
  · intro code h0 h1
    unfold component_type component_offsets
    simp only []
    omega

/-- Witness of C13 at the offsets `(1, -1, 0)` of an edge, code 11. -/
theorem classification_partition_witness :
    0 ≤ component_type 1 (-1) 0 ∧ component_type 1 (-1) 0 ≤ 26 ∧
    component_offsets (component_type 1 (-1) 0) = (1, -1, 0) :=
  classification_partition.1 1 (-1) 0 (by decide) (by decide) (by decide) (by decide)
    (by decide) (by decide)

theorem count_name_eq_zero (name : String) (e_list : List emitter_t)
    (h : name ∉ e_list.map (fun e => e.name)) : count_name name e_list = 0 := by
  induction e_list with
  | nil => rfl
  | cons e es ih =>
    simp only [List.map_cons, List.mem_cons, not_or] at h
    have hne : ¬ e.name = name := fun heq => h.1 heq.symm
    simp only [count_name, List.filter_cons, hne, decide_False] at ih ⊢
    exact ih h.2

theorem find_emitter_name_none (name : String) (e_list : List emitter_t)
    (h : name ∉ e_list.map (fun e => e.name)) : find_emitter_name name e_list = none := by
  unfold find_emitter_name
  rw [List.find?_eq_none]
  intro e he hname
  apply h
  simp only [decide_eq_true_eq] at hname
  exact List.mem_map.2 ⟨e, he, hname⟩

/-- In a list without a repeated name, a name that is present is borne by one
emitter, and the scan finds that emitter. -/
theorem count_name_eq_one (name : String) (e_list : List emitter_t)
    (hnames : distinct_names e_list) (hin : ∃ e ∈ e_list, e.name = name) :
    count_name name e_list = 1 ∧
    ∃ e ∈ e_list, e.name = name ∧ find_emitter_name name e_list = some e := by
  induction e_list with
  | nil => obtain ⟨e, he, _⟩ := hin; cases he
  | cons e es ih =>
    unfold distinct_names at hnames
    simp only [List.map_cons, List.nodup_cons] at hnames
    by_cases hname : e.name = name
    · have hnot : name ∉ es.map (fun e => e.name) := by rw [← hname]; exact hnames.1
      refine ⟨?_, e, by simp, hname, ?_⟩
      · have h0 := count_name_eq_zero name es hnot
        simp only [count_name, List.filter_cons, hname, decide_True, if_true,
          List.length_cons] at h0 ⊢
        omega
      · simp [find_emitter_name, hname]
    · obtain ⟨e2, he2, hn2⟩ := hin
      have hmem : e2 ∈ es := by
        rcases List.mem_cons.1 he2 with h | h
        · exact absurd (h ▸ hn2) hname
        · exact h
      obtain ⟨hc, e3, he3, hn3, hf3⟩ := ih hnames.2 ⟨e2, hmem, hn2⟩
      refine ⟨?_, e3, List.mem_cons_of_mem _ he3, hn3, ?_⟩
      · simp only [count_name, List.filter_cons, hname, decide_False] at hc ⊢
        exact hc
      · unfold find_emitter_name at hf3 ⊢
        simp only [List.find?_cons, hname, decide_False]
        exact hf3

/-- C14: registry uniqueness: in a registry in which no two emitters share a
name and which holds an emitter of the given name, `new_emitter` with that name
fails with the duplicate-name error and leaves the registry as it is, so the
registry holds exactly one emitter of that name and `find_emitter_name`
returns it; and every call of `new_emitter`, failing or not, keeps the names
of the registry distinct. -/
theorem new_emitter_duplicate_name (e_list : List emitter_t) (name : String) (sp : Nat)
    (emission_model : EmissionModel) (max_component : Int)
    (hnames : distinct_names e_list) (hin : ∃ e ∈ e_list, e.name = name) :
    new_emitter name sp emission_model max_component e_list =
      (Except.error RegistryError.DuplicateName, e_list) ∧
    count_name name (new_emitter name sp emission_model max_component e_list).2 = 1 ∧
    (∃ e ∈ e_list, e.name = name ∧
      find_emitter_name name (new_emitter name sp emission_model max_component e_list).2
        = some e) ∧
    (∀ (name2 : String) (sp2 : Nat) (model2 : EmissionModel) (max2 : Int),
      distinct_names (new_emitter name2 sp2 model2 max2 e_list).2) := by
  obtain ⟨hc, e, he, hn, hf⟩ := count_name_eq_one name e_list hnames hin
  have hfail : new_emitter name sp emission_model max_component e_list =
      (Except.error RegistryError.DuplicateName, e_list) := by
    simp [new_emitter, hf]
  refine ⟨hfail, by rw [hfail]; exact hc, ⟨e, he, hn, by rw [hfail]; exact hf⟩, ?_⟩
  intro name2 sp2 model2 max2
  unfold new_emitter
  split
  · exact hnames
  · rename_i hfind
    split
    · exact hnames
    · unfold distinct_names at hnames ⊢
      simp only [List.map_cons, List.nodup_cons]
      refine ⟨?_, hnames⟩
      intro hmem
      obtain ⟨e2, he2, hn2⟩ := List.mem_map.1 hmem
      apply hfind
      unfold find_emitter_name
      rw [List.find?_isSome]
      exact ⟨e2, he2, by simpa using hn2⟩

/-- Witness of C14: a second emitter named "anode" is refused. -/
theorem new_emitter_duplicate_name_witness :
    new_emitter "anode" 1 EmissionModel.ivory 8
        (new_emitter "anode" 0 EmissionModel.ccube 4 []).2 =
      (Except.error RegistryError.DuplicateName,
        (new_emitter "anode" 0 EmissionModel.ccube 4 []).2) ∧
    count_name "anode" (new_emitter "anode" 1 EmissionModel.ivory 8
        (new_emitter "anode" 0 EmissionModel.ccube 4 []).2).2 = 1 :=
  ⟨(new_emitter_duplicate_name (new_emitter "anode" 0 EmissionModel.ccube 4 []).2 "anode" 1
      EmissionModel.ivory 8 (by decide)
      ⟨⟨[], 0, 4, 0, EmissionModel.ccube, "anode"⟩, by decide, by decide⟩).1,
   (new_emitter_duplicate_name (new_emitter "anode" 0 EmissionModel.ccube 4 []).2 "anode" 1
      EmissionModel.ivory 8 (by decide)
      ⟨⟨[], 0, 4, 0, EmissionModel.ccube, "anode"⟩, by decide, by decide⟩).2.1⟩

theorem add_components_invariant (ids : List Int) : ∀ e : emitter_t,
    e.n_component ≤ e.max_component → e.n_component = e.component.length →
    (add_components e ids).n_component ≤ (add_components e ids).max_component ∧
    (add_components e ids).n_component = (add_components e ids).component.length ∧
    (add_components e ids).max_component = e.max_component := by
  induction ids with
  | nil => intro e h1 h2; exact ⟨h1, h2, rfl⟩
  | cons id ids ih =>
    intro e h1 h2
    unfold add_components
    by_cases hfull : e.n_component = e.max_component
    · have : (add_component e id).2 = e := by simp [add_component, hfull]
      rw [this]
      exact ih e h1 h2
    · have hstep : (add_component e id).2 =
          { e with component := e.component ++ [id], n_component := e.n_component + 1 } := by
        simp [add_component, hfull]
      rw [hstep]
      have h := ih { e with component := e.component ++ [id], n_component := e.n_component + 1 }
        (by show e.n_component + 1 ≤ e.max_component; omega)
        (by show e.n_component + 1 = ((e.component ++ [id]).length : Int); simp [h2])
      exact h

/-- C15: capacity enforcement: at `n_component == max_component` adding a
component fails with `CapacityExceeded` and leaves the emitter, its
`n_component` and its component list as they are; below the capacity it appends
the id and increases `n_component` by exactly one; `n_component <=
max_component` is kept by every addition, and holds, with `n_component` the
length of the list, after any sequence of additions to a new emitter. -/
theorem add_component_capacity (e : emitter_t) (id : Int) :
    (e.n_component = e.max_component →
      add_component e id = (Except.error RegistryError.CapacityExceeded, e)) ∧
    (e.n_component < e.max_component →
      (add_component e id).1 = Except.ok () ∧
      (add_component e id).2.component = e.component ++ [id] ∧
      (add_component e id).2.n_component = e.n_component + 1) ∧
    (add_component e id).2.max_component = e.max_component ∧
    (e.n_component ≤ e.max_component →
      (add_component e id).2.n_component ≤ (add_component e id).2.max_component) ∧
    (∀ (name : String) (sp : Nat) (model : EmissionModel) (max_component : Int)
        (e_list : List emitter_t) (enew : emitter_t) (ids : List Int),
      (new_emitter name sp model max_component e_list).1 = Except.ok enew →
      (add_components enew ids).n_component ≤ (add_components enew ids).max_component ∧
      (add_components enew ids).n_component = (add_components enew ids).component.length) := by
  refine ⟨?_, ?_, ?_, ?_, ?_⟩
  · intro h
    simp [add_component, h]
  · intro h
    have hne : ¬ e.n_component = e.max_component := by omega
    simp [add_component, hne]
  · unfold add_component
    split <;> rfl
  · intro h
    unfold add_component
    split
    · exact h
    · show e.n_component + 1 ≤ e.max_component
      omega
  · intro name sp model max_component e_list enew ids hnew
    unfold new_emitter at hnew
    split at hnew
    · cases hnew
    · split at hnew
      · cases hnew
      · rename_i hcap
        simp only [Except.ok.injEq] at hnew
        subst hnew
        have h := add_components_invariant ids
          { component := [], n_component := 0, max_component := max_component, sp := sp,
            emission_model := model, name := name }
          (by show (0 : Int) ≤ max_component; omega) (by simp)
        exact ⟨h.1, h.2.1⟩

/-- Witness of C15: an emitter of capacity 1 takes one component and refuses
the second. -/
theorem add_component_capacity_witness :
    add_component (add_component
        { component := [], n_component := 0, max_component := 1, sp := 0,
          emission_model := EmissionModel.ccube, name := "anode" } 173).2 205 =
      (Except.error RegistryError.CapacityExceeded,
        { component := [173], n_component := 1, max_component := 1, sp := 0,
          emission_model := EmissionModel.ccube, name := "anode" }) :=
  (add_component_capacity
    { component := [173], n_component := 1, max_component := 1, sp := 0,
      emission_model := EmissionModel.ccube, name := "anode" } 205).1 rfl

/-- C17: the parameter block is large enough: with 4-byte `int` and `float`
the struct `child_langmuir_t` has 12 bytes and `ccube_t` and `ivory_t` have 16,
and for every size of `int` and of `float` from 1 to 16 bytes each of the three
structs has at most `MAX_EMISSION_MODEL_SIZE = 1024` bytes. -/
theorem parameter_block_large_enough :
    MAX_EMISSION_MODEL_SIZE = 1024 ∧
    sizeof_struct 4 4 child_langmuir_t = 12 ∧
    sizeof_struct 4 4 ccube_t = 16 ∧
    sizeof_struct 4 4 ivory_t = 16 ∧
    (∀ int_size float_size : Nat, 1 ≤ int_size → int_size ≤ 16 →
      1 ≤ float_size → float_size ≤ 16 →
      sizeof_struct int_size float_size child_langmuir_t ≤ MAX_EMISSION_MODEL_SIZE ∧
      sizeof_struct int_size float_size ccube_t ≤ MAX_EMISSION_MODEL_SIZE ∧
      sizeof_struct int_size float_size ivory_t ≤ MAX_EMISSION_MODEL_SIZE) := by
  refine ⟨rfl, by decide, by decide, by decide, ?_⟩
  intro int_size float_size h1 h2 h3 h4
  interval_cases int_size <;> interval_cases float_size <;> decide

/-- Witness of C17 for an 8-byte `int` and a 4-byte `float`. -/
theorem parameter_block_large_enough_witness :
    sizeof_struct 8 4 child_langmuir_t ≤ MAX_EMISSION_MODEL_SIZE ∧
    sizeof_struct 8 4 ccube_t ≤ MAX_EMISSION_MODEL_SIZE ∧
    sizeof_struct 8 4 ivory_t ≤ MAX_EMISSION_MODEL_SIZE :=
  parameter_block_large_enough.2.2.2.2 8 4 (by decide) (by decide) (by decide) (by decide)

/-! ## Claims on the work partition and on determinism -/

theorem quad_first_zero (n : Int) (P : Nat) : quad_first n P 0 = 0 := by
  unfold quad_first
  split
  · rfl
  · simp

theorem quad_first_mono (n : Int) (P : Nat) {r s : Nat} (h : r ≤ s) :
    quad_first n P r ≤ quad_first n P s := by
  unfold quad_first
  split
  · exact le_refl 0
  · apply Nat.div_le_div_right
    apply Nat.mul_le_mul_right
    omega

theorem quad_first_last (n : Int) (P : Nat) (hP : 0 < P) : quad_first n P P = n_quad n := by
  unfold quad_first
  rw [if_neg (by omega), Nat.min_self]
  exact Nat.mul_div_cancel_left _ hP

theorem four_quad_first_le (n : Int) (P r : Nat) : 4 * quad_first n P r ≤ n.toNat := by
  have h := quadPartition.within n P r
  have h1 : quadPartition.first n P r = 4 * quad_first n P r := rfl
  rw [h1] at h
  omega

theorem quadPartition_first (n : Int) (P rank : Nat) :
    quadPartition.first n P rank = 4 * quad_first n P rank := rfl

theorem quadPartition_count_worker (n : Int) (P rank : Nat) (h : rank < P) :
    quadPartition.count n P rank = 4 * (quad_first n P (rank + 1) - quad_first n P rank) := by
  show (if rank < P then 4 * (quad_first n P (rank + 1) - quad_first n P rank)
    else if rank = P then n.toNat - 4 * quad_first n P P else 0) = _
  rw [if_pos h]

theorem quadPartition_count_host (n : Int) (P : Nat) :
    quadPartition.count n P P = n.toNat - 4 * quad_first n P P := by
  show (if P < P then 4 * (quad_first n P (P + 1) - quad_first n P P)
    else if P = P then n.toNat - 4 * quad_first n P P else 0) = _
  rw [if_neg (lt_irrefl P), if_pos rfl]

/-- The slice of a worker ends where the slice of the next rank starts. -/
theorem quadPartition_next (n : Int) (P rank : Nat) (h : rank < P) :
    quadPartition.first n P (rank + 1) =
      quadPartition.first n P rank + quadPartition.count n P rank := by
  rw [quadPartition_first, quadPartition_first, quadPartition_count_worker n P rank h]
  have := quad_first_mono n P (show rank ≤ rank + 1 by omega)
  omega

/-- A value from the first bound on and below the last one lies between two
consecutive bounds. -/
theorem between_bounds (f : Nat → Nat) (x : Nat) :
    ∀ P : Nat, f 0 ≤ x → x < f P → ∃ r, r < P ∧ f r ≤ x ∧ x < f (r + 1) := by
  intro P
  induction P with
  | zero => intro h0 h1; omega
  | succ P ih =>
    intro h0 h1
    by_cases h : x < f P
    · obtain ⟨r, hr, h2, h3⟩ := ih h0 h
      exact ⟨r, by omega, h2, h3⟩
    · exact ⟨P, by omega, by omega, h1⟩

/-- The worker slice of rank `rank` covers index `i` exactly when the quad of
`i` is one of the quads of that worker. -/
theorem quadPartition_worker_covers (n : Int) (P rank i : Nat) (h : rank < P) :
    (quadPartition.first n P rank ≤ i ∧
        i < quadPartition.first n P rank + quadPartition.count n P rank) ↔
      (quad_first n P rank ≤ i / 4 ∧ i / 4 < quad_first n P (rank + 1)) := by
  rw [← quadPartition_next n P rank h, quadPartition_first, quadPartition_first]
  omega

/-- Two consecutive pieces of a list make one piece. -/
theorem take_drop_append {α : Type} (p : List α) (a b c : Nat) (hab : a ≤ b) (hbc : b ≤ c) :
    (p.drop a).take (b - a) ++ (p.drop b).take (c - b) = (p.drop a).take (c - a) := by
  have e : c - a = (b - a) + (c - b) := by omega
  rw [e, List.take_add, List.drop_drop]
  have e2 : a + (b - a) = b := by omega
  rw [e2]

/-- The slices of the first `k` workers, joined in rank order, are the
particles before the slice of rank `k`. -/
theorem worker_slices_join {Particle : Type} (p : List Particle) (n : Int) (P : Nat) :
    ∀ k : Nat, k ≤ P →
      (List.range k).flatMap (slice quadPartition p n P) =
        p.take (quadPartition.first n P k) := by
  intro k
  induction k with
  | zero =>
    intro _
    rw [quadPartition_first, quad_first_zero]
    rfl
  | succ k ih =>
    intro hk
    have hlt : k < P := by omega
    rw [List.range_succ, List.flatMap_append, ih (by omega)]
    have hs : [k].flatMap (slice quadPartition p n P) = slice quadPartition p n P k := by
      simp [List.flatMap]
    rw [hs]
    unfold slice
    have hnext := quadPartition_next n P k hlt
    have h := take_drop_append p 0 (quadPartition.first n P k)
      (quadPartition.first n P (k + 1)) (Nat.zero_le _) (by omega)
    simp only [List.drop_zero, Nat.sub_zero] at h
    have e : quadPartition.first n P (k + 1) - quadPartition.first n P k =
        quadPartition.count n P k := by omega
    rw [e] at h
    exact h

section PartitionClaim

variable {Particle Interp : Type}

/-- The slot `en[rank]` that `energy_p` reads holds the sum, from `+0.0`, of
the per-particle energy over the slice of `rank`. -/
theorem en_after_slice (P : Nat) (ke : Interp → Dbl → Particle → Dbl) (part : Partition)
    (en0 : Nat → Dbl) (p : List Particle) (n : Int) (q_m : Dbl) (fi : Interp) (gr : grid_t)
    (rank : Nat) (hr : rank ≤ P) :
    en_after (sliceEnv P ke part en0) p n q_m fi gr rank =
      fold_sum ((slice part p n P rank).map (ke fi q_m)) := by
  by_cases hrP : rank = P
  · subst hrP
    obtain ⟨a, ha, h⟩ := en_after_host (sliceEnv rank ke part en0) p n q_m fi gr
    rw [show (sliceEnv rank ke part en0).n_pipeline = rank from rfl] at h
    rw [h]
    obtain ⟨h1, h2, h3, h4, _⟩ := ha
    show slice_energy ke part a rank rank = _
    unfold slice_energy slice fold_sum
    rw [h1, h2, h3, h4]
  · obtain ⟨a, ha, h⟩ := en_after_worker (sliceEnv P ke part en0) p n q_m fi gr rank
      (by show rank < P; omega)
    rw [h]
    obtain ⟨h1, h2, h3, h4, _⟩ := ha
    show slice_energy ke part a rank P = _
    unfold slice_energy slice fold_sum
    rw [h1, h2, h3, h4]

/-- C11: tail correctness of the work partition, for every `n >= 0`, quads of 4
and `P` workers.  The slices start at index 0; the slice of each rank starts
where the slice of the rank before ends (worker ranks `0..P-1` in order, then
the host, rank `P`); the host tail ends at `n`; every particle index below `n`
lies in the slice of exactly one rank; the slices of two different ranks have
no index in common; every worker slice is a whole number of quads; with at
least one worker the host tail is the final incomplete quad, the `n mod 4`
particles from index `4 * (n / 4)` on; a particle lies in the host tail
exactly when no worker slice covers it.  On the particle array: the slices of
ranks `0..P`, joined in rank order, are the first `n` particles, each once; and
in `energy_p`, run with the pipelines that sum over these slices, the slot
`en[rank]` of every rank `0..P` holds the sum over the slice of that rank. -/
theorem partition_tail_correctness (n : Int) (P : Nat) (hn : 0 ≤ n) :
    quadPartition.first n P 0 = 0 ∧
    (∀ rank, rank < P →
      quadPartition.first n P (rank + 1) =
        quadPartition.first n P rank + quadPartition.count n P rank) ∧
    ((quadPartition.first n P P + quadPartition.count n P P : Nat) : Int) = n ∧
    (∀ i : Nat, (i : Int) < n →
      ∃! rank, rank ≤ P ∧ quadPartition.first n P rank ≤ i ∧
        i < quadPartition.first n P rank + quadPartition.count n P rank) ∧
    (∀ r s i : Nat, r ≤ P → s ≤ P → r ≠ s →
      ¬ ((quadPartition.first n P r ≤ i ∧
            i < quadPartition.first n P r + quadPartition.count n P r) ∧
          (quadPartition.first n P s ≤ i ∧
            i < quadPartition.first n P s + quadPartition.count n P s))) ∧
    (∀ rank, rank < P → 4 ∣ quadPartition.count n P rank ∧ 4 ∣ quadPartition.first n P rank) ∧
    (0 < P →
      quadPartition.first n P P = 4 * (n.toNat / 4) ∧
      quadPartition.count n P P = n.toNat % 4) ∧
    (∀ i : Nat, (i : Int) < n →
      ((quadPartition.first n P P ≤ i ∧
          i < quadPartition.first n P P + quadPartition.count n P P) ↔
        ¬ ∃ rank, rank < P ∧ quadPartition.first n P rank ≤ i ∧
          i < quadPartition.first n P rank + quadPartition.count n P rank)) ∧
    (∀ p : List Particle,
      (List.range (P + 1)).flatMap (slice quadPartition p n P) = p.take n.toNat) ∧
    (∀ (ke : Interp → Dbl → Particle → Dbl) (en0 : Nat → Dbl) (p : List Particle) (q_m : Dbl)
        (fi : Interp) (gr : grid_t) (rank : Nat), rank ≤ P →
      en_after (sliceEnv P ke quadPartition en0) p n q_m fi gr rank =
        fold_sum ((slice quadPartition p n P rank).map (ke fi q_m))) := by
  have hle := four_quad_first_le n P P
  have hPfirst := quadPartition_first n P P
  have hPcount := quadPartition_count_host n P
  have hend : quadPartition.first n P P + quadPartition.count n P P = n.toNat := by
    rw [hPfirst, hPcount]; omega
  -- an index covered by a worker lies before the host tail
  have hworker : ∀ (i rank : Nat), rank < P →
      quadPartition.first n P rank ≤ i →
      i < quadPartition.first n P rank + quadPartition.count n P rank →
      i < 4 * quad_first n P P := by
    intro i rank hr h1 h2
    have h3 := ((quadPartition_worker_covers n P rank i hr).1 ⟨h1, h2⟩).2
    have h4 := quad_first_mono n P (show rank + 1 ≤ P by omega)
    omega
  -- an index before the host tail is covered by a worker
  have hcover : ∀ i : Nat, i < 4 * quad_first n P P →
      ∃ rank, rank < P ∧ quadPartition.first n P rank ≤ i ∧
        i < quadPartition.first n P rank + quadPartition.count n P rank := by
    intro i hi
    obtain ⟨r, hr, h1, h2⟩ := between_bounds (quad_first n P) (i / 4) P
      (by rw [quad_first_zero]; exact Nat.zero_le _) (by omega)
    exact ⟨r, hr, (quadPartition_worker_covers n P r i hr).2 ⟨h1, h2⟩⟩
  -- two worker slices, the lower rank first, have no index in common
  have hapart : ∀ (r s i : Nat), r < s → s ≤ P →
      ¬ ((quadPartition.first n P r ≤ i ∧
            i < quadPartition.first n P r + quadPartition.count n P r) ∧
          (quadPartition.first n P s ≤ i ∧
            i < quadPartition.first n P s + quadPartition.count n P s)) := by
    rintro r s i hrs hs ⟨⟨h1, h2⟩, h3, _⟩
    have h5 := ((quadPartition_worker_covers n P r i (by omega)).1 ⟨h1, h2⟩).2
    have h6 := quad_first_mono n P (show r + 1 ≤ s by omega)
    rw [quadPartition_first] at h3
    omega
  have hdisj : ∀ r s i : Nat, r ≤ P → s ≤ P → r ≠ s →
      ¬ ((quadPartition.first n P r ≤ i ∧
            i < quadPartition.first n P r + quadPartition.count n P r) ∧
          (quadPartition.first n P s ≤ i ∧
            i < quadPartition.first n P s + quadPartition.count n P s)) := by
    intro r s i hr hs hne
    rcases Nat.lt_or_gt_of_ne hne with h | h
    · exact hapart r s i h hs
    · exact fun hh => hapart s r i h hr ⟨hh.2, hh.1⟩
  refine ⟨?_, quadPartition_next n P, ?_, ?_, hdisj, ?_, ?_, ?_, ?_, ?_⟩
  · rw [quadPartition_first, quad_first_zero]
  · rw [hend]; omega
  · intro i hi
    have hiN : i < n.toNat := by omega
    have hex : ∃ rank, rank ≤ P ∧ quadPartition.first n P rank ≤ i ∧
        i < quadPartition.first n P rank + quadPartition.count n P rank := by
      by_cases hlt : i < 4 * quad_first n P P
      · obtain ⟨r, hr, h1, h2⟩ := hcover i hlt
        exact ⟨r, le_of_lt hr, h1, h2⟩
      · exact ⟨P, le_refl P, by rw [hPfirst]; omega, by rw [hend]; exact hiN⟩
    obtain ⟨r, hr, h1, h2⟩ := hex
    refine ⟨r, ⟨hr, h1, h2⟩, ?_⟩
    rintro s ⟨hs, h3, h4⟩
    by_contra hne
    exact hdisj s r i hs hr hne ⟨⟨h3, h4⟩, h1, h2⟩
  · intro rank hr
    rw [quadPartition_count_worker n P rank hr, quadPartition_first]
    exact ⟨⟨_, rfl⟩, ⟨_, rfl⟩⟩
  · intro hP
    have hq := quad_first_last n P hP
    rw [hPfirst, hPcount, hq]
    unfold n_quad
    constructor
    · rfl
    · omega
  · intro i hi
    have hiN : i < n.toNat := by omega
    constructor
    · rintro ⟨h1, _⟩ ⟨rank, hr, hr1, hr2⟩
      have := hworker i rank hr hr1 hr2
      rw [hPfirst] at h1
      omega
    · intro hnot
      by_cases hlt : i < 4 * quad_first n P P
      · exact absurd (hcover i hlt) hnot
      · exact ⟨by rw [hPfirst]; omega, by rw [hend]; exact hiN⟩
  · intro p
    rw [List.range_succ, List.flatMap_append, worker_slices_join p n P P (le_refl P)]
    have hs : [P].flatMap (slice quadPartition p n P) = slice quadPartition p n P P := by
      simp [List.flatMap]
    rw [hs]
    unfold slice
    have h := take_drop_append p 0 (quadPartition.first n P P) n.toNat (Nat.zero_le _)
      (by omega)
    simp only [List.drop_zero, Nat.sub_zero] at h
    have e : n.toNat - quadPartition.first n P P = quadPartition.count n P P := by omega
    rw [e] at h
    exact h
  · intro ke en0 p q_m fi gr rank hr
    exact en_after_slice P ke quadPartition en0 p n q_m fi gr rank hr

/-- Witness of C11: 47 particles and 4 workers: the 11 whole quads go to the
workers, the host is given the last 3 particles, from index 44 on, particle 20
is in the slice of exactly one rank, and the slices joined are the 47 particles;
15 particles and 4 workers: the host is given the last 3, from index 12 on. -/
theorem partition_tail_correctness_witness :
    (quadPartition.first 47 4 4 = 44 ∧ quadPartition.count 47 4 4 = 3) ∧
    (quadPartition.first 15 4 4 = 12 ∧ quadPartition.count 15 4 4 = 3) ∧
    (∃! rank, rank ≤ 4 ∧ quadPartition.first 47 4 rank ≤ 20 ∧
      20 < quadPartition.first 47 4 rank + quadPartition.count 47 4 rank) ∧
    (List.range (4 + 1)).flatMap (slice quadPartition (List.range 50) 47 4) =
      (List.range 50).take 47 :=
  ⟨(@partition_tail_correctness Nat Unit 47 4 (by decide)).2.2.2.2.2.2.1 (by decide),
   (@partition_tail_correctness Nat Unit 15 4 (by decide)).2.2.2.2.2.2.1 (by decide),
   (@partition_tail_correctness Nat Unit 47 4 (by decide)).2.2.2.1 20 (by decide),
   (@partition_tail_correctness Nat Unit 47 4 (by decide)).2.2.2.2.2.2.2.2.1 (List.range 50)⟩

end PartitionClaim

section Determinism

variable {Particle Interp : Type}

/-- The pipeline of the specification reads the five inputs only. -/
theorem slice_energy_same_inputs (ke : Interp → Dbl → Particle → Dbl) (part : Partition)
    (a b : energy_p_pipeline_args_t Particle Interp) (rank P : Nat) (h : same_inputs a b) :
    slice_energy ke part a rank P = slice_energy ke part b rank P := by
  obtain ⟨h1, h2, h3, h4, _⟩ := h
  unfold slice_energy
  rw [h1, h2, h3, h4]

/-- When the pipelines read the five inputs only, the partial results found
after the wait do not depend on what the array `en` held before the call. -/
theorem en_after_indep (env : Env Particle Interp) (en0b : Nat → Dbl) (p : List Particle)
    (n : Int) (q_m : Dbl) (fi : Interp) (gr : grid_t)
    (hv4 : ∀ (a b : energy_p_pipeline_args_t Particle Interp) (rank : Nat),
      same_inputs a b →
      env.energy_p_pipeline_v4 a rank env.n_pipeline =
        env.energy_p_pipeline_v4 b rank env.n_pipeline)
    (hhost : ∀ a b : energy_p_pipeline_args_t Particle Interp, same_inputs a b →
      env.energy_p_pipeline a env.n_pipeline env.n_pipeline =
        env.energy_p_pipeline b env.n_pipeline env.n_pipeline)
    (rank : Nat) (hr : rank ≤ env.n_pipeline) :
    en_after { env with en0 := en0b } p n q_m fi gr rank = en_after env p n q_m fi gr rank := by
  by_cases hP : rank = env.n_pipeline
  · subst hP
    obtain ⟨a, ha, h1⟩ := en_after_host { env with en0 := en0b } p n q_m fi gr
    obtain ⟨b, hb, h2⟩ := en_after_host env p n q_m fi gr
    rw [show ({ env with en0 := en0b } : Env Particle Interp).n_pipeline = env.n_pipeline
      from rfl] at h1
    rw [h1, h2]
    exact hhost a b ⟨ha.1.trans hb.1.symm, ha.2.1.trans hb.2.1.symm,
      ha.2.2.1.trans hb.2.2.1.symm, ha.2.2.2.1.trans hb.2.2.2.1.symm,
      ha.2.2.2.2.trans hb.2.2.2.2.symm⟩
  · have hlt : rank < env.n_pipeline := by omega
    obtain ⟨a, ha, h1⟩ := en_after_worker { env with en0 := en0b } p n q_m fi gr rank hlt
    obtain ⟨b, hb, h2⟩ := en_after_worker env p n q_m fi gr rank hlt
    rw [h1, h2]
    exact hv4 a b rank ⟨ha.1.trans hb.1.symm, ha.2.1.trans hb.2.1.symm,
      ha.2.2.1.trans hb.2.2.1.symm, ha.2.2.2.1.trans hb.2.2.2.1.symm,
      ha.2.2.2.2.trans hb.2.2.2.2.symm⟩

/-- C12: reduction determinism: when the pipelines compute their partial sums
from the five inputs held in `args`, two invocations of `energy_p` with the
same particle array, `n`, `q_m`, interpolator, grid (hence the same
contributions of the other ranks) and the same pipelines return the same
outcome, whatever the stack array `args->en` held when each call began. -/
theorem energy_p_deterministic (env : Env Particle Interp) (en0b : Nat → Dbl)
    (p : List Particle) (n : Int) (q_m : Dbl) (f : Option Interp) (g : Option grid_t)
    (hv4 : ∀ (a b : energy_p_pipeline_args_t Particle Interp) (rank : Nat),
      same_inputs a b →
      env.energy_p_pipeline_v4 a rank env.n_pipeline =
        env.energy_p_pipeline_v4 b rank env.n_pipeline)
    (hhost : ∀ a b : energy_p_pipeline_args_t Particle Interp, same_inputs a b →
      env.energy_p_pipeline a env.n_pipeline env.n_pipeline =
        env.energy_p_pipeline b env.n_pipeline env.n_pipeline) :
    (energy_p { env with en0 := en0b } p n q_m f g).result = (energy_p env p n q_m f g).result ∧
    (energy_p { env with en0 := en0b } p n q_m f g).trace = (energy_p env p n q_m f g).trace := by
  by_cases hn : n < 0
  · simp [energy_p, hn]
  · cases f with
    | none => simp [energy_p, hn]
    | some fi =>
      cases g with
      | none => simp [energy_p, hn]
      | some gr =>
        rw [energy_p_valid _ p n q_m fi gr (by omega), energy_p_valid env p n q_m fi gr (by omega)]
        have hloc : local_sum { env with en0 := en0b } p n q_m fi gr =
            local_sum env p n q_m fi gr := by
          rw [local_sum_eq_fold, local_sum_eq_fold]
          show fold_sum ((List.range (env.n_pipeline + 1)).map _) = _
          congr 1
          apply List.map_congr_left
          intro rank hrank
          exact en_after_indep env en0b p n q_m fi gr hv4 hhost rank
            (by have := List.mem_range.1 hrank; omega)
        rw [hloc]
        exact ⟨rfl, rfl⟩

/-- Witness of C12: two calls on the same three particles with the pipelines of
the specification, one finding NaN in the array `en` and one finding `1.0`. -/
theorem energy_p_deterministic_witness :
    (energy_p
        { (sliceEnv 1 (fun _ _ _ => Dbl.lit false 1 1) hostOnlyPartition (fun _ => Dbl.nan) :
            Env Unit Unit) with en0 := fun _ => Dbl.lit false 1 1 }
        [(), (), ()] 3 (Dbl.lit false 1 2) (some ())
        (some ⟨Dbl.lit false 1 1, ⟨[], []⟩⟩)).result =
    (energy_p
        (sliceEnv 1 (fun _ _ _ => Dbl.lit false 1 1) hostOnlyPartition (fun _ => Dbl.nan))
        [(), (), ()] 3 (Dbl.lit false 1 2) (some ())
        (some ⟨Dbl.lit false 1 1, ⟨[], []⟩⟩)).result :=
  (energy_p_deterministic
    (sliceEnv 1 (fun _ _ _ => Dbl.lit false 1 1) hostOnlyPartition (fun _ => Dbl.nan))
    (fun _ => Dbl.lit false 1 1) [(), (), ()] 3 (Dbl.lit false 1 2) (some ())
    (some ⟨Dbl.lit false 1 1, ⟨[], []⟩⟩)
    (fun a b rank h =>
      slice_energy_same_inputs (fun _ _ _ => Dbl.lit false 1 1) hostOnlyPartition a b rank 1 h)
    (fun a b h =>
      slice_energy_same_inputs (fun _ _ _ => Dbl.lit false 1 1) hostOnlyPartition a b 1 1 h)).1

end Determinism

/-! ## Lemmas on the exclusive or and on `sw` -/

theorem nat_xor_swap_right (m n : Nat) : n ^^^ (m ^^^ n) = m := by
  rw [Nat.xor_comm m n, Nat.xor_cancel_left]

theorem nat_xor_swap_left (m n : Nat) : (m ^^^ n) ^^^ m = n := by
  rw [Nat.xor_comm m n, Nat.xor_cancel_right]

theorem int_xor_swap_right (x y : Int) : Int.xor y (Int.xor x y) = x := by
  cases x <;> cases y <;> simp [Int.xor, nat_xor_swap_right]

theorem int_xor_swap_left (x y : Int) : Int.xor (Int.xor x y) x = y := by
  cases x <;> cases y <;> simp [Int.xor, nat_xor_swap_left]

theorem int_xor_self (x : Int) : Int.xor x x = 0 := by
  cases x <;> simp [Int.xor]

/-- On two different lanes `sw` is an exchange. -/
theorem sw_exchange (s : V4State) (r : Nat) (k : Fin 4) (r2 : Nat) (k2 : Fin 4)
    (h : ¬ (r = r2 ∧ k = k2)) :
    sw s r k r2 k2 = fun a b =>
      if a = r ∧ b = k then s r2 k2 else if a = r2 ∧ b = k2 then s r k else s a b := by
  funext a b
  have h2 : ¬ (r2 = r ∧ k2 = k) := fun hh => h ⟨hh.1.symm, hh.2.symm⟩
  by_cases h1 : a = r ∧ b = k
  · obtain ⟨rfl, rfl⟩ := h1
    simp [sw, xor_assign, set_lane, h, h2, int_xor_swap_left, int_xor_swap_right]
  · by_cases h3 : a = r2 ∧ b = k2
    · obtain ⟨rfl, rfl⟩ := h3
      simp [sw, xor_assign, set_lane, h, h2, int_xor_swap_left, int_xor_swap_right]
    · simp [sw, xor_assign, set_lane, h1, h3]

/-- On one and the same lane `sw` does not exchange: it clears the lane. -/
theorem sw_same_lane (s : V4State) (r : Nat) (k : Fin 4) :
    sw s r k r k = set_lane s r k 0 := by
  funext a b
  by_cases h1 : a = r ∧ b = k
  · simp [sw, xor_assign, set_lane, h1, int_xor_self]
  · simp [sw, xor_assign, set_lane, h1]

/-- Two lanes of different index are different lanes, whatever the objects. -/
theorem sw_exchange_lanes (s : V4State) (r : Nat) (k : Fin 4) (r2 : Nat) (k2 : Fin 4)
    (h : k ≠ k2) :
    sw s r k r2 k2 = fun a b =>
      if a = r ∧ b = k then s r2 k2 else if a = r2 ∧ b = k2 then s r k else s a b :=
  sw_exchange s r k r2 k2 (fun hh => h hh.2)

/-- The state in which the lanes of four objects are transposed. -/
theorem transpose_eq (s : V4State) (a0 a1 a2 a3 : Nat) (h : distinct4 a0 a1 a2 a3) :
    transpose s a0 a1 a2 a3 = fun x k =>
      if x = a0 then s (vref a0 a1 a2 a3 k) 0
      else if x = a1 then s (vref a0 a1 a2 a3 k) 1
      else if x = a2 then s (vref a0 a1 a2 a3 k) 2
      else if x = a3 then s (vref a0 a1 a2 a3 k) 3
      else s x k := by
  obtain ⟨h01, h02, h03, h12, h13, h23⟩ := h
  have h10 := h01.symm
  have h20 := h02.symm
  have h30 := h03.symm
  have h21 := h12.symm
  have h31 := h13.symm
  have h32 := h23.symm
  unfold transpose
  simp only [sw_exchange_lanes _ _ _ _ _ (show (1 : Fin 4) ≠ 0 by decide),
    sw_exchange_lanes _ _ _ _ _ (show (2 : Fin 4) ≠ 0 by decide),
    sw_exchange_lanes _ _ _ _ _ (show (3 : Fin 4) ≠ 0 by decide),
    sw_exchange_lanes _ _ _ _ _ (show (2 : Fin 4) ≠ 1 by decide),
    sw_exchange_lanes _ _ _ _ _ (show (3 : Fin 4) ≠ 1 by decide),
    sw_exchange_lanes _ _ _ _ _ (show (3 : Fin 4) ≠ 2 by decide)]
  funext x k
  by_cases e0 : x = a0
  · subst e0
    fin_cases k <;> simp [vref, h01, h02, h03, h12, h13, h23, h10, h20, h30, h21, h31, h32]
  · by_cases e1 : x = a1
    · subst e1
      fin_cases k <;> simp [vref, h01, h02, h03, h12, h13, h23, h10, h20, h30, h21, h31, h32]
    · by_cases e2 : x = a2
      · subst e2
        fin_cases k <;> simp [vref, h01, h02, h03, h12, h13, h23, h10, h20, h30, h21, h31, h32]
      · by_cases e3 : x = a3
        · subst e3
          fin_cases k <;> simp [vref, h01, h02, h03, h12, h13, h23, h10, h20, h30, h21, h31, h32]
        · simp [e0, e1, e2, e3]

/-! ## Claims on transpose, swizzle and deswizzle -/

/-- C18: `transpose` computes the 4x4 transpose of four distinct vectors: with
`m[r][c]` the lane `c` of the `r`-th vector before the call, lane `c` of the
`r`-th vector after the call is `m[c][r]` (the diagonal stays, the six
off-diagonal pairs are exchanged), no other vector changes, and applying
`transpose` twice restores the state. -/
theorem transpose_transposes (s : V4State) (a0 a1 a2 a3 : Nat)
    (h : distinct4 a0 a1 a2 a3) :
    (∀ r c : Fin 4,
      transpose s a0 a1 a2 a3 (vref a0 a1 a2 a3 r) c = s (vref a0 a1 a2 a3 c) r) ∧
    (∀ x : Nat, x ≠ a0 → x ≠ a1 → x ≠ a2 → x ≠ a3 → transpose s a0 a1 a2 a3 x = s x) ∧
    transpose (transpose s a0 a1 a2 a3) a0 a1 a2 a3 = s := by
  have hd := h
  obtain ⟨h01, h02, h03, h12, h13, h23⟩ := h
  have h10 := h01.symm
  have h20 := h02.symm
  have h30 := h03.symm
  have h21 := h12.symm
  have h31 := h13.symm
  have h32 := h23.symm
  refine ⟨?_, ?_, ?_⟩
  · intro r c
    rw [transpose_eq s a0 a1 a2 a3 hd]
    fin_cases r <;> fin_cases c <;>
      simp [vref, h01, h02, h03, h12, h13, h23, h10, h20, h30, h21, h31, h32]
  · intro x e0 e1 e2 e3
    rw [transpose_eq s a0 a1 a2 a3 hd]
    funext k
    simp [e0, e1, e2, e3]
  · rw [transpose_eq _ a0 a1 a2 a3 hd, transpose_eq s a0 a1 a2 a3 hd]
    funext x k
    by_cases e0 : x = a0
    · subst e0
      fin_cases k <;> simp [vref, h01, h02, h03, h12, h13, h23, h10, h20, h30, h21, h31, h32]
    · by_cases e1 : x = a1
      · subst e1
        fin_cases k <;> simp [vref, h01, h02, h03, h12, h13, h23, h10, h20, h30, h21, h31, h32]
      · by_cases e2 : x = a2
        · subst e2
          fin_cases k <;>
            simp [vref, h01, h02, h03, h12, h13, h23, h10, h20, h30, h21, h31, h32]
        · by_cases e3 : x = a3
          · subst e3
            fin_cases k <;>
              simp [vref, h01, h02, h03, h12, h13, h23, h10, h20, h30, h21, h31, h32]
          · simp [e0, e1, e2, e3]

/-- Witness of C18: the four vectors `(10 r + c)` for `r, c = 0..3`, held by
the objects 0 to 3: after `transpose` lane 2 of vector 1 is `21`. -/
theorem transpose_transposes_witness :
    transpose (fun r c => 10 * (r : Int) + (c : Nat)) 0 1 2 3 (vref 0 1 2 3 1) 2 = 21 :=
  (transpose_transposes (fun r c => 10 * (r : Int) + (c : Nat)) 0 1 2 3 (by decide)).1 1 2

/-- The state after the four loads `load(a0,a); load(a1,b); load(a2,c);
load(a3,d)` into four distinct vectors. -/
theorem four_loads_eq (m : IntMem) (s : V4State) (a0 a1 a2 a3 a b c d : Nat)
    (h : distinct4 a b c d) :
    load m (load m (load m (load m s a0 a) a1 b) a2 c) a3 d = fun (x : Nat) (k : Fin 4) =>
      if x = a then m (a0 + (k : Nat))
      else if x = b then m (a1 + (k : Nat))
      else if x = c then m (a2 + (k : Nat))
      else if x = d then m (a3 + (k : Nat))
      else s x k := by
  obtain ⟨hab, hac, had, hbc, hbd, hcd⟩ := h
  have hba := hab.symm
  have hca := hac.symm
  have hda := had.symm
  have hcb := hbc.symm
  have hdb := hbd.symm
  have hdc := hcd.symm
  funext x k
  by_cases ea : x = a
  · subst ea
    fin_cases k <;> simp [load, set_lane, hab, hac, had, hbc, hbd, hcd, hba, hca, hda, hcb, hdb, hdc]
  · by_cases eb : x = b
    · subst eb
      fin_cases k <;>
        simp [load, set_lane, hab, hac, had, hbc, hbd, hcd, hba, hca, hda, hcb, hdb, hdc]
    · by_cases ec : x = c
      · subst ec
        fin_cases k <;>
          simp [load, set_lane, hab, hac, had, hbc, hbd, hcd, hba, hca, hda, hcb, hdb, hdc]
      · by_cases ed : x = d
        · subst ed
          fin_cases k <;>
            simp [load, set_lane, hab, hac, had, hbc, hbd, hcd, hba, hca, hda, hcb, hdb, hdc]
        · simp [load, set_lane, ea, eb, ec, ed]

/-- The state after `swizzle` into four distinct vectors: lane `k` of `a` is
`a_k[0]`, of `b` is `a_k[1]`, of `c` is `a_k[2]` and of `d` is `a_k[3]`. -/
theorem swizzle_eq (m : IntMem) (s : V4State) (a0 a1 a2 a3 a b c d : Nat)
    (h : distinct4 a b c d) :
    swizzle m s a0 a1 a2 a3 a b c d = fun x k =>
      if x = a then m (vref a0 a1 a2 a3 k + 0)
      else if x = b then m (vref a0 a1 a2 a3 k + 1)
      else if x = c then m (vref a0 a1 a2 a3 k + 2)
      else if x = d then m (vref a0 a1 a2 a3 k + 3)
      else s x k := by
  obtain ⟨hab, hac, had, hbc, hbd, hcd⟩ := h
  have hba := hab.symm
  have hca := hac.symm
  have hda := had.symm
  have hcb := hbc.symm
  have hdb := hbd.symm
  have hdc := hcd.symm
  funext x k
  by_cases ea : x = a
  · subst ea
    fin_cases k <;>
      simp [swizzle, set_lane, vref, hab, hac, had, hbc, hbd, hcd, hba, hca, hda, hcb, hdb, hdc]
  · by_cases eb : x = b
    · subst eb
      fin_cases k <;>
        simp [swizzle, set_lane, vref, hab, hac, had, hbc, hbd, hcd, hba, hca, hda, hcb, hdb, hdc]
    · by_cases ec : x = c
      · subst ec
        fin_cases k <;>
          simp [swizzle, set_lane, vref, hab, hac, had, hbc, hbd, hcd, hba, hca, hda, hcb,
            hdb, hdc]
      · by_cases ed : x = d
        · subst ed
          fin_cases k <;>
            simp [swizzle, set_lane, vref, hab, hac, had, hbc, hbd, hcd, hba, hca, hda, hcb,
              hdb, hdc]
        · simp [swizzle, set_lane, ea, eb, ec, ed]

/-- C19: `swizzle` is four row loads followed by a transpose: for all rows
`a0..a3` of the `int` memory and four distinct vectors `a, b, c, d`,
`swizzle(a0,a1,a2,a3,a,b,c,d)` leaves the same state as `load(a0,a);
load(a1,b); load(a2,c); load(a3,d); transpose(a,b,c,d)`, and
`half_swizzle(a0,a1,a2,a3,a,b)` leaves in `a` and in `b` the lanes `swizzle`
leaves there. -/
theorem swizzle_is_load_transpose (m : IntMem) (s : V4State) (a0 a1 a2 a3 a b c d : Nat)
    (h : distinct4 a b c d) :
    swizzle m s a0 a1 a2 a3 a b c d =
      transpose (load m (load m (load m (load m s a0 a) a1 b) a2 c) a3 d) a b c d ∧
    (∀ k : Fin 4, half_swizzle m s a0 a1 a2 a3 a b a k = swizzle m s a0 a1 a2 a3 a b c d a k) ∧
    (∀ k : Fin 4, half_swizzle m s a0 a1 a2 a3 a b b k = swizzle m s a0 a1 a2 a3 a b c d b k) := by
  have hd := h
  obtain ⟨hab, hac, had, hbc, hbd, hcd⟩ := h
  have hba := hab.symm
  have hca := hac.symm
  have hda := had.symm
  have hcb := hbc.symm
  have hdb := hbd.symm
  have hdc := hcd.symm
  refine ⟨?_, ?_, ?_⟩
  · rw [transpose_eq _ a b c d hd, four_loads_eq m s a0 a1 a2 a3 a b c d hd,
      swizzle_eq m s a0 a1 a2 a3 a b c d hd]
    funext x k
    by_cases ea : x = a
    · subst ea
      fin_cases k <;> simp [vref, hab, hac, had, hbc, hbd, hcd, hba, hca, hda, hcb, hdb, hdc,
              show ((3 : Fin 4) : Nat) = 3 from rfl]
    · by_cases eb : x = b
      · subst eb
        fin_cases k <;> simp [vref, hab, hac, had, hbc, hbd, hcd, hba, hca, hda, hcb, hdb, hdc,
              show ((3 : Fin 4) : Nat) = 3 from rfl]
      · by_cases ec : x = c
        · subst ec
          fin_cases k <;>
            simp [vref, hab, hac, had, hbc, hbd, hcd, hba, hca, hda, hcb, hdb, hdc,
              show ((3 : Fin 4) : Nat) = 3 from rfl]
        · by_cases ed : x = d
          · subst ed
            fin_cases k <;>
              simp [vref, hab, hac, had, hbc, hbd, hcd, hba, hca, hda, hcb, hdb, hdc,
              show ((3 : Fin 4) : Nat) = 3 from rfl]
          · simp [ea, eb, ec, ed]
  · intro k
    rw [swizzle_eq m s a0 a1 a2 a3 a b c d hd]
    fin_cases k <;> simp [half_swizzle, set_lane, vref, hab, hba]
  · intro k
    rw [swizzle_eq m s a0 a1 a2 a3 a b c d hd]
    fin_cases k <;> simp [half_swizzle, set_lane, vref, hab, hba]

/-- Witness of C19: the rows at addresses 0, 4, 8, 12 of the memory `x -> x`,
swizzled into the objects 0 to 3 of a state of zeros. -/
theorem swizzle_is_load_transpose_witness :
    swizzle (fun x => (x : Int)) (fun _ _ => 0) 0 4 8 12 0 1 2 3 =
      transpose (load (fun x => (x : Int)) (load (fun x => (x : Int))
        (load (fun x => (x : Int)) (load (fun x => (x : Int)) (fun _ _ => 0) 0 0) 4 1) 8 2)
        12 3) 0 1 2 3 :=
  (swizzle_is_load_transpose (fun x => (x : Int)) (fun _ _ => 0) 0 4 8 12 0 1 2 3
    (by decide)).1

theorem set_mem_other (m : IntMem) (addr : Nat) (v : Int) (x : Nat) (h : x ≠ addr) :
    set_mem m addr v x = m x := by
  simp [set_mem, h]

theorem set_mem_same (m : IntMem) (addr : Nat) (v : Int) : set_mem m addr v addr = v := by
  simp [set_mem]

/-- The rows that `deswizzle` writes, when they do not overlap: row `k` holds
lane `k` of `a`, `b`, `c` and `d`, in that order. -/
theorem deswizzle_row (s : V4State) (m : IntMem) (a b c d q0 q1 q2 q3 : Nat)
    (hq : rows_apart4 q0 q1 q2 q3) (k : Fin 4) :
    deswizzle s m a b c d q0 q1 q2 q3 (vref q0 q1 q2 q3 k + 0) = s a k ∧
    deswizzle s m a b c d q0 q1 q2 q3 (vref q0 q1 q2 q3 k + 1) = s b k ∧
    deswizzle s m a b c d q0 q1 q2 q3 (vref q0 q1 q2 q3 k + 2) = s c k ∧
    deswizzle s m a b c d q0 q1 q2 q3 (vref q0 q1 q2 q3 k + 3) = s d k := by
  obtain ⟨h01, h02, h03, h12, h13, h23⟩ := hq
  unfold rows_apart at h01 h02 h03 h12 h13 h23
  fin_cases k <;> simp only [vref, deswizzle] <;> refine ⟨?_, ?_, ?_, ?_⟩ <;>
    simp (disch := omega) only [set_mem_other, set_mem_same] <;> rfl

/-- What `deswizzle` leaves alone: every address outside the four rows. -/
theorem deswizzle_other (s : V4State) (m : IntMem) (a b c d q0 q1 q2 q3 x : Nat)
    (h0 : x < q0 ∨ q0 + 4 ≤ x) (h1 : x < q1 ∨ q1 + 4 ≤ x)
    (h2 : x < q2 ∨ q2 + 4 ≤ x) (h3 : x < q3 ∨ q3 + 4 ≤ x) :
    deswizzle s m a b c d q0 q1 q2 q3 x = m x := by
  simp only [deswizzle]
  simp (disch := omega) only [set_mem_other]

/-- C20: the round trip of `swizzle` and `deswizzle`, for four distinct vectors
`a, b, c, d` and four pairwise non-overlapping rows `q0..q3` to write:
`swizzle(r0,r1,r2,r3,a,b,c,d)` followed by `deswizzle(a,b,c,d,q0,q1,q2,q3)`
leaves in every row `q_k` the four `int` that the row `r_k` held, and changes
no address outside the rows `q_k`; conversely `deswizzle(a,b,c,d,q0,q1,q2,q3)`
followed by `swizzle(q0,q1,q2,q3,a,b,c,d)` leaves every vector as it was. -/
theorem swizzle_deswizzle_round_trip (m : IntMem) (s : V4State)
    (r0 r1 r2 r3 a b c d q0 q1 q2 q3 : Nat)
    (hv : distinct4 a b c d) (hq : rows_apart4 q0 q1 q2 q3) :
    (∀ k : Fin 4, ∀ j : Fin 4,
      deswizzle (swizzle m s r0 r1 r2 r3 a b c d) m a b c d q0 q1 q2 q3
          (vref q0 q1 q2 q3 k + (j : Nat)) =
        m (vref r0 r1 r2 r3 k + (j : Nat))) ∧
    (∀ x : Nat, (x < q0 ∨ q0 + 4 ≤ x) → (x < q1 ∨ q1 + 4 ≤ x) →
      (x < q2 ∨ q2 + 4 ≤ x) → (x < q3 ∨ q3 + 4 ≤ x) →
      deswizzle (swizzle m s r0 r1 r2 r3 a b c d) m a b c d q0 q1 q2 q3 x = m x) ∧
    swizzle (deswizzle s m a b c d q0 q1 q2 q3) s q0 q1 q2 q3 a b c d = s := by
  have hd := hv
  obtain ⟨hab, hac, had, hbc, hbd, hcd⟩ := hv
  have hba := hab.symm
  have hca := hac.symm
  have hda := had.symm
  have hcb := hbc.symm
  have hdb := hbd.symm
  have hdc := hcd.symm
  refine ⟨?_, ?_, ?_⟩
  · intro k j
    obtain ⟨e0, e1, e2, e3⟩ :=
      deswizzle_row (swizzle m s r0 r1 r2 r3 a b c d) m a b c d q0 q1 q2 q3 hq k
    have la : swizzle m s r0 r1 r2 r3 a b c d a k = m (vref r0 r1 r2 r3 k + 0) := by
      rw [swizzle_eq m s r0 r1 r2 r3 a b c d hd]; simp
    have lb : swizzle m s r0 r1 r2 r3 a b c d b k = m (vref r0 r1 r2 r3 k + 1) := by
      rw [swizzle_eq m s r0 r1 r2 r3 a b c d hd]; simp [hba]
    have lc : swizzle m s r0 r1 r2 r3 a b c d c k = m (vref r0 r1 r2 r3 k + 2) := by
      rw [swizzle_eq m s r0 r1 r2 r3 a b c d hd]; simp [hca, hcb]
    have ld : swizzle m s r0 r1 r2 r3 a b c d d k = m (vref r0 r1 r2 r3 k + 3) := by
      rw [swizzle_eq m s r0 r1 r2 r3 a b c d hd]; simp [hda, hdb, hdc]
    rw [la] at e0
    rw [lb] at e1
    rw [lc] at e2
    rw [ld] at e3
    fin_cases j
    · exact e0
    · exact e1
    · exact e2
    · exact e3
  · intro x h0 h1 h2 h3
    exact deswizzle_other _ m a b c d q0 q1 q2 q3 x h0 h1 h2 h3
  · rw [swizzle_eq _ s q0 q1 q2 q3 a b c d hd]
    funext x k
    obtain ⟨e0, e1, e2, e3⟩ := deswizzle_row s m a b c d q0 q1 q2 q3 hq k
    by_cases ea : x = a
    · subst ea; simp only [if_true]; exact e0
    · by_cases eb : x = b
      · subst eb; simp only [ea, if_false, if_true]; exact e1
      · by_cases ec : x = c
        · subst ec; simp only [ea, eb, if_false, if_true]; exact e2
        · by_cases ed : x = d
          · subst ed; simp only [ea, eb, ec, if_false, if_true]; exact e3
          · simp only [ea, eb, ec, ed, if_false]

/-- Witness of C20: the rows at addresses 0, 4, 8, 12 of the memory `x -> x`
are swizzled into the objects 0 to 3 and deswizzled to the rows at 16, 20, 24,
28: the address `20 + 2` then holds what `4 + 2` held. -/
theorem swizzle_deswizzle_round_trip_witness :
    deswizzle (swizzle (fun x => (x : Int)) (fun _ _ => 0) 0 4 8 12 0 1 2 3)
        (fun x => (x : Int)) 0 1 2 3 16 20 24 28 (vref 16 20 24 28 1 + ((2 : Fin 4) : Nat)) =
      (fun x => (x : Int)) (vref 0 4 8 12 1 + ((2 : Fin 4) : Nat)) :=
  (swizzle_deswizzle_round_trip (fun x => (x : Int)) (fun _ _ => 0) 0 4 8 12 0 1 2 3
    16 20 24 28 (by decide) (by decide)).1 1 2

/-! ## Lemmas on masks -/

theorem land_neg_one_right (x : Int) : Int.land x (-1) = x := by
  cases x with
  | ofNat m => show ((Nat.ldiff m 0 : Nat) : Int) = m; simp [Nat.ldiff]
  | negSucc m => show Int.negSucc (m ||| 0) = Int.negSucc m; simp

theorem lor_zero_left (x : Int) : Int.lor 0 x = x := by
  cases x with
  | ofNat m => show ((0 ||| m : Nat) : Int) = m; simp
  | negSucc m => show Int.negSucc (Nat.ldiff m 0) = Int.negSucc m; simp [Nat.ldiff]

theorem lnot_lnot (x : Int) : Int.lnot (Int.lnot x) = x := by
  cases x <;> rfl

theorem mk_v4_lane (x0 x1 x2 x3 : Int) :
    mk_v4 x0 x1 x2 x3 0 = x0 ∧ mk_v4 x0 x1 x2 x3 1 = x1 ∧
    mk_v4 x0 x1 x2 x3 2 = x2 ∧ mk_v4 x0 x1 x2 x3 3 = x3 :=
  ⟨rfl, rfl, rfl, rfl⟩

/-- Lane `k` of the object `b` after `cmov` depends on the lanes `k` before the
call only, whether or not `c`, `a` and `b` are the same object. -/
theorem cmov_lane (s : V4State) (c a b x : Nat) (k : Fin 4) :
    cmov s c a b x k =
      if x = b then Int.lor (Int.land (s b k) (Int.lnot (s c k))) (Int.land (s a k) (s c k))
      else s x k := by
  by_cases hx : x = b
  · subst hx
    fin_cases k <;> simp [cmov, set_lane]
  · simp [cmov, set_lane, hx]

theorem notcmov_lane (s : V4State) (c a b x : Nat) (k : Fin 4) :
    notcmov s c a b x k =
      if x = b then Int.lor (Int.land (s b k) (s c k)) (Int.land (s a k) (Int.lnot (s c k)))
      else s x k := by
  by_cases hx : x = b
  · subst hx
    fin_cases k <;> simp [notcmov, set_lane]
  · simp [notcmov, set_lane, hx]

theorem czero_lane (s : V4State) (c a x : Nat) (k : Fin 4) :
    czero s c a x k = if x = a then Int.land (s a k) (Int.lnot (s c k)) else s x k := by
  by_cases hx : x = a
  · subst hx
    fin_cases k <;> simp [czero, set_lane]
  · simp [czero, set_lane, hx]

theorem notczero_lane (s : V4State) (c a x : Nat) (k : Fin 4) :
    notczero s c a x k = if x = a then Int.land (s a k) (s c k) else s x k := by
  by_cases hx : x = a
  · subst hx
    fin_cases k <;> simp [notczero, set_lane]
  · simp [notczero, set_lane, hx]

theorem v4int_compl_lane (a : V4) (k : Fin 4) : v4int_compl a k = Int.lnot (a k) := by
  fin_cases k <;> rfl

theorem v4int_lognot_lane (a : V4) (k : Fin 4) :
    v4int_lognot a k = if a k ≠ 0 then 0 else -1 := by
  fin_cases k <;> rfl

theorem v4int_binary_logical_lane (op : Int → Int → Bool) (a b : V4) (k : Fin 4) :
    v4int_binary_logical op a b k = if op (a k) (b k) then -1 else 0 := by
  fin_cases k <;> rfl

theorem v4float_binary_logical_lane (op : Int → Int → Bool) (a b : V4) (k : Fin 4) :
    v4float_binary_logical op a b k = if op (a k) (b k) then -1 else 0 := by
  fin_cases k <;> rfl

theorem v4int_abs_lane (a : V4) (k : Fin 4) :
    v4int_abs a k = if a k ≥ 0 then a k else toInt32 (-(a k)) := by
  fin_cases k <;> rfl

/-! ## Claims on the conditional moves, the predicates and abs -/

/-- C21: the conditional move is a per-lane select and `notcmov` is its dual:
in a lane where the mask `c.i[k]` is `-1`, `cmov(c,a,b)` leaves `b.i[k]` equal
to `a.i[k]`, in a lane where it is `0` it leaves `b.i[k]` as it was (so for a
mask of lanes `0` or `-1` it is the select), and it changes no other object;
for every `c`, with `~c` held by a temporary `t` that is neither `a` nor `b`,
`notcmov(c,a,b)` leaves every object but `t` as `cmov(~c,a,b)` does, and
`notczero(c,a)` as `czero(~c,a)` does. -/
theorem cmov_selects (s : V4State) (c a b : Nat) :
    (∀ k : Fin 4, s c k = -1 → cmov s c a b b k = s a k) ∧
    (∀ k : Fin 4, s c k = 0 → cmov s c a b b k = s b k) ∧
    ((∀ k : Fin 4, s c k = 0 ∨ s c k = -1) →
      ∀ k : Fin 4, cmov s c a b b k = if s c k = -1 then s a k else s b k) ∧
    (∀ (x : Nat) (k : Fin 4), x ≠ b → cmov s c a b x k = s x k) ∧
    (∀ t : Nat, t ≠ a → t ≠ b → ∀ (x : Nat) (k : Fin 4), x ≠ t →
      cmov (put_v4 s t (v4int_compl (s c))) t a b x k = notcmov s c a b x k) ∧
    (∀ t : Nat, t ≠ a → ∀ (x : Nat) (k : Fin 4), x ≠ t →
      czero (put_v4 s t (v4int_compl (s c))) t a x k = notczero s c a x k) := by
  have hm1 : ∀ k : Fin 4, s c k = -1 → cmov s c a b b k = s a k := by
    intro k h
    rw [cmov_lane, if_pos rfl, h]
    show Int.lor (Int.land (s b k) 0) (Int.land (s a k) (-1)) = s a k
    rw [land_zero_right, land_neg_one_right, lor_zero_left]
  have h0 : ∀ k : Fin 4, s c k = 0 → cmov s c a b b k = s b k := by
    intro k h
    rw [cmov_lane, if_pos rfl, h]
    show Int.lor (Int.land (s b k) (-1)) (Int.land (s a k) 0) = s b k
    rw [land_zero_right, land_neg_one_right, lor_zero_right]
  refine ⟨hm1, h0, ?_, ?_, ?_, ?_⟩
  · intro hmask k
    rcases hmask k with h | h
    · rw [h0 k h, h]; simp
    · rw [hm1 k h, h]; simp
  · intro x k hx
    rw [cmov_lane, if_neg hx]
  · intro t hta htb x k hxt
    have hat : a ≠ t := fun h => hta h.symm
    have hbt : b ≠ t := fun h => htb h.symm
    rw [cmov_lane, notcmov_lane]
    simp only [put_v4, if_true, hat, hbt, if_false, hxt, v4int_compl_lane, lnot_lnot]
  · intro t hta x k hxt
    have hat : a ≠ t := fun h => hta h.symm
    rw [czero_lane, notczero_lane]
    simp only [put_v4, if_true, hat, if_false, hxt, v4int_compl_lane, lnot_lnot]

/-- Witness of C21: the mask `(-1, 0, -1, 0)` in the object 0 selects lanes 0
and 2 of the object 1 into the object 2. -/
theorem cmov_selects_witness :
    ∀ k : Fin 4,
      cmov (fun r => if r = 0 then mk_v4 (-1) 0 (-1) 0 else if r = 1 then mk_v4 10 11 12 13
        else mk_v4 20 21 22 23) 0 1 2 2 k =
      if (fun r => if r = 0 then mk_v4 (-1) 0 (-1) 0 else if r = 1 then mk_v4 10 11 12 13
        else mk_v4 20 21 22 23) 0 k = -1
      then (fun r => if r = 0 then mk_v4 (-1) 0 (-1) 0 else if r = 1 then mk_v4 10 11 12 13
        else mk_v4 20 21 22 23) 1 k
      else (fun r => if r = 0 then mk_v4 (-1) 0 (-1) 0 else if r = 1 then mk_v4 10 11 12 13
        else mk_v4 20 21 22 23) 2 k :=
  (cmov_selects (fun r => if r = 0 then mk_v4 (-1) 0 (-1) 0 else if r = 1 then mk_v4 10 11 12 13
    else mk_v4 20 21 22 23) 0 1 2).2.2.1 (by decide)

/-- C22: the mask invariant of the `v4int` predicates: every lane of `a<b`,
`a>b`, `a==b`, `a!=b`, `a<=b`, `a>=b`, `a&&b`, `a||b` and `!a` is `0` or `-1`
(all bits set), and it is `-1` exactly when the scalar C predicate holds on that lane of the
operands; a lane of `!(!a)` is `-1` exactly where the lane of `a` is not
zero. -/
theorem v4int_mask_invariant (a b : V4) (k : Fin 4) :
    (∀ op : LogicalOp, v4int_logical op a b k = -1 ∨ v4int_logical op a b k = 0) ∧
    (∀ op : LogicalOp, v4int_logical op a b k = -1 ↔ op.holds (a k) (b k) = true) ∧
    (v4int_logical LogicalOp.lt a b k = -1 ↔ a k < b k) ∧
    (v4int_logical LogicalOp.gt a b k = -1 ↔ a k > b k) ∧
    (v4int_logical LogicalOp.eq a b k = -1 ↔ a k = b k) ∧
    (v4int_logical LogicalOp.ne a b k = -1 ↔ a k ≠ b k) ∧
    (v4int_logical LogicalOp.le a b k = -1 ↔ a k ≤ b k) ∧
    (v4int_logical LogicalOp.ge a b k = -1 ↔ a k ≥ b k) ∧
    (v4int_logical LogicalOp.and a b k = -1 ↔ (a k ≠ 0 ∧ b k ≠ 0)) ∧
    (v4int_logical LogicalOp.or a b k = -1 ↔ (a k ≠ 0 ∨ b k ≠ 0)) ∧
    (v4int_lognot a k = -1 ∨ v4int_lognot a k = 0) ∧
    (v4int_lognot a k = -1 ↔ a k = 0) ∧
    (v4int_lognot (v4int_lognot a) k = -1 ↔ a k ≠ 0) ∧
    (∀ n : Nat, Int.testBit (-1) n = true) := by
  have hgen : ∀ op : LogicalOp, v4int_logical op a b k = -1 ↔ op.holds (a k) (b k) = true := by
    intro op
    unfold v4int_logical
    rw [v4int_binary_logical_lane]
    split <;> simp_all
  refine ⟨?_, hgen, ?_, ?_, ?_, ?_, ?_, ?_, ?_, ?_, ?_, ?_, ?_, ?_⟩
  · intro op
    unfold v4int_logical
    rw [v4int_binary_logical_lane]
    split
    · exact Or.inl rfl
    · exact Or.inr rfl
  · rw [hgen]; simp [LogicalOp.holds]
  · rw [hgen]; simp [LogicalOp.holds]
  · rw [hgen]; simp [LogicalOp.holds]
  · rw [hgen]; simp [LogicalOp.holds]
  · rw [hgen]; simp [LogicalOp.holds]
  · rw [hgen]; simp [LogicalOp.holds]
  · rw [hgen]; simp [LogicalOp.holds]
  · rw [hgen]; simp [LogicalOp.holds]
  · rw [v4int_lognot_lane]
    split
    · exact Or.inr rfl
    · exact Or.inl rfl
  · rw [v4int_lognot_lane]
    split <;> simp_all
  · rw [v4int_lognot_lane, v4int_lognot_lane]
    by_cases h : a k = 0 <;> simp [h]
  · intro n
    show (!(Nat.testBit 0 n)) = true
    simp

/-- Witness of C22: lane 1 of `(1,5,3,0) < (2,4,3,0)` is `0` and lane 0 is
`-1`. -/
theorem v4int_mask_invariant_witness :
    (v4int_logical LogicalOp.lt (mk_v4 1 5 3 0) (mk_v4 2 4 3 0) 0 = -1 ↔
      mk_v4 1 5 3 0 0 < mk_v4 2 4 3 0 0) ∧
    (v4int_logical LogicalOp.lt (mk_v4 1 5 3 0) (mk_v4 2 4 3 0) 1 = -1 ↔
      mk_v4 1 5 3 0 1 < mk_v4 2 4 3 0 1) :=
  ⟨(v4int_mask_invariant (mk_v4 1 5 3 0) (mk_v4 2 4 3 0) 0).2.2.1,
   (v4int_mask_invariant (mk_v4 1 5 3 0) (mk_v4 2 4 3 0) 1).2.2.1⟩

/-- C23: the comparisons of `v4float` are decided on the raw integer lanes: for
every operator `op` of `<, >, ==, !=, <=, >=, &&, ||` the mask `a op b` of
`v4float` is the mask of `v4int` on the same lanes read as signed `int`.  So
the lanes `0x00000000` and `0x80000000`, which hold `+0.0` and `-0.0` (equal as
`float`), compare as not equal; and the lanes `0xC0000000` and `0xBF800000`,
which hold `-2.0 < -1.0`, compare as greater, not as less. -/
theorem v4float_logical_is_int (a b : V4) (op : LogicalOp) :
    v4float_logical op a b = v4int_logical op a b ∧
    (∀ k : Fin 4, v4float_logical op a b k = -1 ↔ op.holds (a k) (b k) = true) ∧
    (float_of_bits 0 = Dbl.zero false ∧ float_of_bits (-2147483648) = Dbl.zero true ∧
      Dbl.feq (float_of_bits 0) (float_of_bits (-2147483648)) = true ∧
      (∀ k : Fin 4, v4float_logical LogicalOp.eq (mk_v4 0 0 0 0)
        (mk_v4 (-2147483648) (-2147483648) (-2147483648) (-2147483648)) k = 0) ∧
      (∀ k : Fin 4, v4float_logical LogicalOp.ne (mk_v4 0 0 0 0)
        (mk_v4 (-2147483648) (-2147483648) (-2147483648) (-2147483648)) k = -1)) ∧
    (float_of_bits (-1073741824) = Dbl.lit true 2 1 ∧
      float_of_bits (-1082130432) = Dbl.lit true 1 1 ∧
      Dbl.flt (float_of_bits (-1073741824)) (float_of_bits (-1082130432)) = true ∧
      (∀ k : Fin 4, v4float_logical LogicalOp.lt
        (mk_v4 (-1073741824) (-1073741824) (-1073741824) (-1073741824))
        (mk_v4 (-1082130432) (-1082130432) (-1082130432) (-1082130432)) k = 0) ∧
      (∀ k : Fin 4, v4float_logical LogicalOp.gt
        (mk_v4 (-1073741824) (-1073741824) (-1073741824) (-1073741824))
        (mk_v4 (-1082130432) (-1082130432) (-1082130432) (-1082130432)) k = -1)) := by
  refine ⟨?_, ?_, ⟨by decide, by decide, by decide, by decide, by decide⟩,
    ⟨by decide, by decide, by decide, by decide, by decide⟩⟩
  · funext k
    unfold v4float_logical v4int_logical
    rw [v4float_binary_logical_lane, v4int_binary_logical_lane]
  · intro k
    unfold v4float_logical
    rw [v4float_binary_logical_lane]
    split <;> simp_all

/-- C24: `abs` on `v4int`, the lanes being 32-bit `int`: in a lane other than
`-2^31` the result is not negative and equals the absolute value; in a lane
equal to `-2^31` the wrap-around negation gives `-2^31` again, a negative
result; and `abs(abs(a)) == abs(a)` in every lane. -/
theorem v4int_abs_spec (a : V4) (h : ∀ k : Fin 4, isInt32 (a k)) :
    (∀ k : Fin 4, a k ≠ -2147483648 →
      0 ≤ v4int_abs a k ∧ v4int_abs a k = (Int.natAbs (a k) : Int)) ∧
    (∀ k : Fin 4, a k = -2147483648 →
      v4int_abs a k = -2147483648 ∧ v4int_abs a k < 0) ∧
    (∀ k : Fin 4, isInt32 (v4int_abs a k)) ∧
    v4int_abs (v4int_abs a) = v4int_abs a := by
  have hl : ∀ k : Fin 4, v4int_abs a k = if a k ≥ 0 then a k else toInt32 (-(a k)) :=
    fun k => v4int_abs_lane a k
  refine ⟨?_, ?_, ?_, ?_⟩
  · intro k hk
    have hr := h k
    unfold isInt32 at hr
    rw [hl k]
    split
    · omega
    · unfold toInt32; omega
  · intro k hk
    rw [hl k, hk]
    decide
  · intro k
    have hr := h k
    unfold isInt32 at hr ⊢
    rw [hl k]
    split
    · exact hr
    · unfold toInt32; omega
  · funext k
    have hr := h k
    unfold isInt32 at hr
    rw [v4int_abs_lane, hl k]
    by_cases h1 : a k ≥ 0
    · simp only [h1, if_true]
    · simp only [h1, if_false]
      by_cases h2 : toInt32 (-(a k)) ≥ 0
      · rw [if_pos h2]
      · rw [if_neg h2]
        unfold toInt32 at h2 ⊢
        omega

/-- Witness of C24: the vector `(-7, 7, 0, -2^31)`. -/
theorem v4int_abs_spec_witness :
    v4int_abs (v4int_abs (mk_v4 (-7) 7 0 (-2147483648))) =
      v4int_abs (mk_v4 (-7) 7 0 (-2147483648)) :=
  (v4int_abs_spec (mk_v4 (-7) 7 0 (-2147483648)) (by decide)).2.2.2

end Vpic
